import Mathlib

/-!
Shallow embedding of the mergify-engine merge-train scheduler
(`mergify_engine/queue/merge_train.py`) and of the HTTP client error /
retry policy (`mergify_engine/clients/http.py`), together with theorems
settling the frozen claims about the natural-language specification.

Machine integers are modelled as `Nat`/`Int` (Python ints are unbounded),
timestamps as `Int`, SHAs and queue names as `String`.  Fallible code is
modelled with `Option` (`none` = the Python code raises an uncaught
exception at that point).  Network side effects (creating branches,
posting comments, scheduling refreshes) do not change the train state and
are omitted; the outcome of starting a car's checks (which *does* change
the train state) is passed in as an explicit oracle.
-/

namespace MergeTrain

/-- Queue-rule configuration (`rules.QueueRule.config`): the fields the
train logic reads (`speculative_checks`, `batch_size`,
`batch_max_wait_time`, `allow_inplace_checks`, `allow_checks_interruption`). -/
structure QueueRuleConfig where
  speculative_checks : Nat
  batch_size : Nat
  batch_max_wait_time : Int
  allow_inplace_checks : Bool
  allow_checks_interruption : Bool
  deriving DecidableEq, Repr

/-- `queue.PullQueueConfig`: the per-pull config snapshot carried by an
embarked pull.  The train logic reads `name`, `effective_priority` and
`queue_config` (the resolved queue rule). -/
structure PullQueueConfig where
  name : String
  effective_priority : Int
  queue_config : QueueRuleConfig
  deriving DecidableEq, Repr

/-- `merge_train.EmbarkedPull`: `(user_pull_request_number, config, queued_at)`. -/
structure EmbarkedPull where
  user_pull_request_number : Nat
  config : PullQueueConfig
  queued_at : Int
  deriving DecidableEq, Repr

/-- `check_api.Conclusion` (the variants the train logic uses). -/
inductive Conclusion where
  | pending
  | success
  | failure
  | cancelled
  | neutral
  | action_required
  deriving DecidableEq, Repr

/-- `merge_train.TrainCarState` literal type. -/
inductive TrainCarState where
  | pending
  | created
  | updated
  | failed
  deriving DecidableEq, Repr

/-- `merge_train.QueueCheck` (pydantic dataclass): snapshot of an external
check or status. -/
structure QueueCheck where
  name : String
  description : String
  url : Option String
  state : String
  avatar_url : Option String
  deriving DecidableEq, Repr

/-! ### `Train._get_next_batch` (static method, lines 1775-1789) -/

/-- Length of the longest prefix of `pulls` whose members all have queue
name `queue_name` — the value Python's `for _i, pull in
enumerate(pulls[:batch_size]) … break / else: _i += 1` loop leaves in
`_i` when the iterated slice is non-empty: `_i` is the index of the first
mismatching pull, or the slice's length when none mismatches. -/
def matchingPrefixLen (queue_name : String) : List EmbarkedPull → Nat
  | [] => 0
  | p :: rest =>
    if p.config.name ≠ queue_name then 0 else matchingPrefixLen queue_name rest + 1

/-- `Train._get_next_batch(pulls, queue_name, batch_size)`.  Returns
`none` when the Python code raises: with a non-empty `pulls` and
`batch_size = 0` the slice `pulls[:batch_size]` is empty, the `for` loop
never binds `_i`, and the `else: _i += 1` raises `UnboundLocalError`. -/
def getNextBatch (pulls : List EmbarkedPull) (queue_name : String)
    (batch_size : Nat) : Option (List EmbarkedPull × List EmbarkedPull) :=
  if pulls = [] then some ([], [])
  else
    let sliced := pulls.take batch_size
    if sliced = [] then none
    else
      let i := matchingPrefixLen queue_name sliced
      some (pulls.take i, pulls.drop i)

/-! ### `clients/http.py`: status-code classification -/

/-- The exception classes of `mergify_engine/clients/http.py` that
`raise_for_status` can raise.  `HTTPForbidden`, `HTTPUnauthorized`,
`HTTPNotFound` and `HTTPTooManyRequests` subclass `HTTPClientSideError`;
`HTTPServiceUnavailable` subclasses `HTTPServerSideError`. -/
inductive ExcCls where
  | clientSideError
  | unauthorized
  | forbidden
  | notFound
  | tooManyRequests
  | serverSideError
  | serviceUnavailable
  deriving DecidableEq, Repr

/-- The `STATUS_CODE_TO_EXC` dictionary (http.py lines 94-100). -/
def STATUS_CODE_TO_EXC (status : Nat) : Option ExcCls :=
  if status = 401 then some .unauthorized
  else if status = 403 then some .forbidden
  else if status = 404 then some .notFound
  else if status = 429 then some .tooManyRequests
  else if status = 503 then some .serviceUnavailable
  else none

/-- `httpx.codes.is_client_error`: `400 <= status <= 499`. -/
def is_client_error (status : Nat) : Prop := 400 ≤ status ∧ status ≤ 499

instance : DecidablePred is_client_error := fun s =>
  inferInstanceAs (Decidable (400 ≤ s ∧ s ≤ 499))

/-- `httpx.codes.is_server_error`: `500 <= status <= 599`. -/
def is_server_error (status : Nat) : Prop := 500 ≤ status ∧ status ≤ 599

instance : DecidablePred is_server_error := fun s =>
  inferInstanceAs (Decidable (500 ≤ s ∧ s ≤ 599))

/-- `http.raise_for_status(resp)` (lines 187-199), abstracted over the
response's status code: `some c` means the call raises an exception of
class `c`, `none` means it returns without raising. -/
def raise_for_status (status : Nat) : Option ExcCls :=
  if is_client_error status then
    some ((STATUS_CODE_TO_EXC status).getD .clientSideError)
  else if is_server_error status then
    some ((STATUS_CODE_TO_EXC status).getD .serverSideError)
  else none

/-- Subclass test: is `c` an `HTTPClientSideError` (or a subclass)? -/
def ExcCls.isClientSide : ExcCls → Bool
  | .clientSideError | .unauthorized | .forbidden | .notFound | .tooManyRequests => true
  | _ => false

/-- Subclass test: is `c` an `HTTPServerSideError` (or a subclass)? -/
def ExcCls.isServerSide : ExcCls → Bool
  | .serverSideError | .serviceUnavailable => true
  | _ => false

/-! ### `merge_train.TrainCar` and `merge_train.Train` state -/

/-- The fields of the `TrainCar` dataclass other than the recursive
`failure_history` (and the `train` back-reference, which is contextual). -/
structure TrainCarData where
  initial_embarked_pulls : List EmbarkedPull
  still_queued_embarked_pulls : List EmbarkedPull
  parent_pull_request_numbers : List Nat
  initial_current_base_sha : String
  creation_date : Int
  creation_state : TrainCarState
  checks_conclusion : Conclusion
  queue_pull_request_number : Option Nat
  head_branch : Option String
  last_checks : List QueueCheck
  last_evaluated_conditions : Option String
  has_timed_out : Bool
  deriving DecidableEq, Repr

/-- `merge_train.TrainCar`: the non-recursive fields plus the recursive
`failure_history : List[TrainCar]`. -/
inductive TrainCar where
  | mk (data : TrainCarData) (failure_history : List TrainCar)

def TrainCar.data : TrainCar → TrainCarData
  | .mk d _ => d

def TrainCar.failure_history : TrainCar → List TrainCar
  | .mk _ fh => fh

def TrainCar.initial_embarked_pulls (c : TrainCar) : List EmbarkedPull :=
  c.data.initial_embarked_pulls

def TrainCar.still_queued_embarked_pulls (c : TrainCar) : List EmbarkedPull :=
  c.data.still_queued_embarked_pulls

def TrainCar.parent_pull_request_numbers (c : TrainCar) : List Nat :=
  c.data.parent_pull_request_numbers

def TrainCar.initial_current_base_sha (c : TrainCar) : String :=
  c.data.initial_current_base_sha

def TrainCar.creation_state (c : TrainCar) : TrainCarState :=
  c.data.creation_state

def TrainCar.checks_conclusion (c : TrainCar) : Conclusion :=
  c.data.checks_conclusion

def TrainCar.queue_pull_request_number (c : TrainCar) : Option Nat :=
  c.data.queue_pull_request_number

/-- `TrainCar.__init__` as called with the dataclass defaults
(`TrainCar(train, initial, still, parents, base_sha)`):
`creation_date = utcnow()`, `creation_state = "pending"`,
`checks_conclusion = PENDING`, everything else empty/None/False. -/
def TrainCar.new (initial still : List EmbarkedPull) (parents : List Nat)
    (base_sha : String) (creation_date : Int)
    (failure_history : List TrainCar) : TrainCar :=
  .mk
    { initial_embarked_pulls := initial
      still_queued_embarked_pulls := still
      parent_pull_request_numbers := parents
      initial_current_base_sha := base_sha
      creation_date := creation_date
      creation_state := .pending
      checks_conclusion := .pending
      queue_pull_request_number := none
      head_branch := none
      last_checks := []
      last_evaluated_conditions := none
      has_timed_out := false }
    failure_history

/-- The in-memory state of a `Train`: `_cars`, `_waiting_pulls`,
`_current_base_sha`. -/
structure TrainState where
  cars : List TrainCar
  waiting_pulls : List EmbarkedPull
  current_base_sha : Option String

/-- Total number of still-queued embarked pulls over a list of cars. -/
def stillCount (cars : List TrainCar) : Nat :=
  (cars.map (fun c => c.still_queued_embarked_pulls.length)).sum

/-- All still-queued embarked pulls of a list of cars, in car order. -/
def carsPulls (cars : List TrainCar) : List EmbarkedPull :=
  (cars.map TrainCar.still_queued_embarked_pulls).flatten

/-- `Train._iter_embarked_pulls`, projected to the embarked pulls: the
cars' still-queued pulls in car order followed by the waiting pulls. -/
def TrainState.embarkedPulls (s : TrainState) : List EmbarkedPull :=
  carsPulls s.cars ++ s.waiting_pulls

/-- The PR numbers currently held by the train, in queue order. -/
def TrainState.pullNumbers (s : TrainState) : List Nat :=
  s.embarkedPulls.map EmbarkedPull.user_pull_request_number

/-! ### `Train._slice_cars` (lines 1257-1276) -/

/-- The loop of `_slice_cars`: walk the cars decrementing
`new_queue_size` by each car's still-queued count; keep the car while the
running value stays non-negative, otherwise move its still-queued pulls
to the rollback list and tear the car down (`car.delete_pull(reason)`).
Returns `(kept cars, rollback pulls, torn-down cars)`. -/
def sliceCarsAux : Int → List TrainCar → List TrainCar × List EmbarkedPull × List TrainCar
  | _, [] => ([], [], [])
  | n, c :: rest =>
    let n' := n - c.still_queued_embarked_pulls.length
    let r := sliceCarsAux n' rest
    if 0 ≤ n' then (c :: r.1, r.2.1, r.2.2)
    else (r.1, c.still_queued_embarked_pulls ++ r.2.1, c :: r.2.2)

/-- `Train._slice_cars(new_queue_size, reason)`.  Returns the new train
state and the list of cars torn down (each of which had
`delete_pull(reason)` called on it). -/
def sliceCars (s : TrainState) (new_queue_size : Int) : TrainState × List TrainCar :=
  let r := sliceCarsAux new_queue_size s.cars
  ({ cars := r.1
     waiting_pulls := r.2.1 ++ s.waiting_pulls
     current_base_sha := s.current_base_sha }, r.2.2)

/-- Replace a car's `still_queued_embarked_pulls` (in-place mutation in
Python). -/
def TrainCar.setStill (c : TrainCar) (pulls : List EmbarkedPull) : TrainCar :=
  .mk { c.data with still_queued_embarked_pulls := pulls } c.failure_history

/-! ### `Train.remove_pull` (lines 1382-1433) and `Train.add_pull` (1297-1380) -/

/-- The fields of the pull-request context that `remove_pull` reads. -/
structure PullView where
  number : Nat
  merged : Bool
  merge_commit_sha : Option String
  deriving DecidableEq, Repr

/-- `Train._iter_embarked_pulls`: each car's still-queued pulls paired
with the car, then the waiting pulls paired with `None`. -/
def iterEmbarkedWithCar (s : TrainState) : List (EmbarkedPull × Option TrainCar) :=
  (s.cars.map (fun c =>
    c.still_queued_embarked_pulls.map (fun ep => (ep, some c)))).flatten
  ++ s.waiting_pulls.map (fun ep => (ep, (none : Option TrainCar)))

/-- Slow path of `remove_pull`.  `get_position` lives in
`queue.QueueBase`, which is not part of the sources; modelled from the
spec: the position is the PR's index in the concatenated sequence of
cars' still-queued pulls followed by the waiting pulls ("locate its
position; slice the train there, then drop the PR from
`waiting_pulls`"). -/
def removePullSlow (s : TrainState) (p : PullView) : Option (TrainState × List TrainCar) :=
  match (iterEmbarkedWithCar s).findIdx?
      (fun x => x.1.user_pull_request_number == p.number) with
  | none => some (s, [])
  | some position =>
    let r := sliceCars s position
    let n := stillCount r.1.cars
    some (⟨r.1.cars, r.1.waiting_pulls.eraseIdx (position - n), r.1.current_base_sha⟩,
      r.2)

/-- `Train.remove_pull(ctxt)`.  `synced` is the value of
`is_synced_with_the_base_branch(get_base_sha())` (a network query).
Returns the new state and the torn-down cars (each had `delete_pull`
called on it); `none` models an uncaught Python exception. -/
def removePull (s : TrainState) (p : PullView) (synced : Bool) :
    Option (TrainState × List TrainCar) :=
  if p.merged = true then
    match s.cars with
    | [] => removePullSlow s p
    | c :: rest =>
      match c.still_queued_embarked_pulls with
      | [] => none
      | e :: stail =>
        if p.number = e.user_pull_request_number ∧ synced = true then
          match p.merge_commit_sha with
          | none => none
          | some sha =>
            if stail = [] then
              some (⟨rest, s.waiting_pulls, some sha⟩, [c.setStill stail])
            else
              some (⟨c.setStill stail :: rest, s.waiting_pulls, some sha⟩, [])
        else removePullSlow s p
  else removePullSlow s p

/-- `car_can_be_interrupted` (add_pull, lines 1308-1311): the position is
in the waiting region, or the car's checks are still pending and the
incoming config allows interrupting checks. -/
def carCanBeInterrupted (cfg : PullQueueConfig) : Option TrainCar → Bool
  | none => true
  | some car =>
    decide (car.checks_conclusion = .pending) &&
      cfg.queue_config.allow_checks_interruption

/-- Outcome of the scanning loop of `add_pull` (lines 1304-1343). -/
inductive AddPullScan where
  | alreadyInPlace
  | readd
  | insert (best_position : Int)
  deriving DecidableEq, Repr

/-- The scanning loop of `add_pull`: walk the embarked sequence keeping
`best_position` (initially `-1`); stop with `readd`/`alreadyInPlace` when
the PR itself is found, otherwise record the first interruptible position
whose occupant has strictly lower effective priority. -/
def addPullScanAux (pr : Nat) (cfg : PullQueueConfig) :
    List (EmbarkedPull × Option TrainCar) → Nat → Int → AddPullScan
  | [], _, best => .insert best
  | (ep, car) :: rest, position, best =>
    if ep.user_pull_request_number = pr then
      if (cfg.effective_priority ≠ ep.config.effective_priority ∨
          cfg.name ≠ ep.config.name) ∧ carCanBeInterrupted cfg car = true then
        .readd
      else .alreadyInPlace
    else if best = -1 ∧ cfg.effective_priority > ep.config.effective_priority ∧
        carCanBeInterrupted cfg car = true then
      addPullScanAux pr cfg rest (position + 1) position
    else addPullScanAux pr cfg rest (position + 1) best

def addPullScan (s : TrainState) (pr : Nat) (cfg : PullQueueConfig) : AddPullScan :=
  addPullScanAux pr cfg (iterEmbarkedWithCar s) 0 (-1)

/-- `Train.add_pull(ctxt, config)` (state change only; the
`force_remove_pull` eviction from other branches' trains and the refresh
signals are outside this state).  The `readd` branch (PR already embarked
but misplaced) recursively calls `remove_pull` + `add_pull` and is
returned as `none`: the claims about `add_pull` concern PRs not already
embarked.  Returns the new state and the torn-down cars. -/
def addPull (s : TrainState) (pr : Nat) (cfg : PullQueueConfig) (now : Int) :
    Option (TrainState × List TrainCar) :=
  match addPullScan s pr cfg with
  | .alreadyInPlace => some (s, [])
  | .readd => none
  | .insert best =>
    if best = -1 then
      some (⟨s.cars, s.waiting_pulls ++ [⟨pr, cfg, now⟩], s.current_base_sha⟩, [])
    else
      let r := sliceCars s best
      let n := stillCount r.1.cars
      some (⟨r.1.cars,
        r.1.waiting_pulls.insertIdx (best - n).toNat ⟨pr, cfg, now⟩,
        r.1.current_base_sha⟩, r.2)

/-- Spec-side definition (the spec's words, §4.1 `add_pull` step 4, for
comparison with the scanning loop of the source): the first position of
the concatenated sequence that is interruptible and whose occupant has
strictly lower effective priority than the incoming config. -/
def bestPositionSpec (s : TrainState) (cfg : PullQueueConfig) : Option Nat :=
  (iterEmbarkedWithCar s).findIdx? (fun x =>
    carCanBeInterrupted cfg x.2 &&
      decide (cfg.effective_priority > x.1.config.effective_priority))

/-! ### Starting a car: `Train._start_checking_car` (lines 1688-1717) -/

/-- Outcome of starting a car's checks (the network part of
`TrainCar.update_user_pull` / `TrainCar.create_pull`):
`ok q` = checks started (for the draft path, `q` is the number of the
opened draft PR), `postponed` = `TrainCarPullRequestCreationPostponed`
(base branch still missing after retries, or 403 "Resource not
accessible by integration"), `failedCreation` =
`TrainCarPullRequestCreationFailure` (merge conflict, unknown bot
account, other client error). -/
inductive StartOutcome where
  | ok (queue_pull_request_number : Nat)
  | postponed
  | failedCreation
  deriving DecidableEq, Repr

def TrainCar.setState (c : TrainCar) (st : TrainCarState) : TrainCar :=
  .mk { c.data with creation_state := st } c.failure_history

def TrainCar.setConclusion (c : TrainCar) (x : Conclusion) : TrainCar :=
  .mk { c.data with checks_conclusion := x } c.failure_history

def TrainCar.setQprn (c : TrainCar) (q : Nat) : TrainCar :=
  .mk { c.data with queue_pull_request_number := some q } c.failure_history

/-- `TrainCar._get_pulls_branch_ref`: hyphen-join of the initial embarked
PR numbers. -/
def TrainCar.pullsBranchRef (c : TrainCar) : String :=
  String.intercalate "-"
    (c.initial_embarked_pulls.map (fun ep => toString ep.user_pull_request_number))

/-- The state mutations `create_pull` performs before any fallible call:
`head_branch = _get_pulls_branch_ref()`, `creation_state = "created"`
(lines 447-453). -/
def TrainCar.startCreate (c : TrainCar) : TrainCar :=
  .mk { c.data with
          head_branch := some c.pullsBranchRef
          creation_state := .created }
    c.failure_history

/-- `Train._start_checking_car(queue_rule, car)` where `car` is
`self._cars[idx]` (the call sites pass the last car or `cars[0]`; the
Python `self._cars[0] == car` object comparison is modelled as
`idx = 0`).  In-place update is chosen iff the car is the head car with a
single still-queued pull and no parents and the rule allows in-place
checks.  On `postponed` the handler `del self._cars[-1]` removes the
*last* car and extends `_waiting_pulls` with the *started* car's
still-queued pulls, then re-raises (second component `true`). -/
def applyStartOutcome (rule : QueueRuleConfig) (o : StartOutcome) (s : TrainState)
    (idx : Nat) : TrainState × Bool :=
  match s.cars[idx]? with
  | none => (s, false)
  | some car =>
    let must_be_updated := idx = 0 ∧ car.still_queued_embarked_pulls.length = 1 ∧
      car.parent_pull_request_numbers.length = 0 ∧ rule.allow_inplace_checks = true
    match o with
    | .postponed =>
      (⟨s.cars.dropLast, s.waiting_pulls ++ car.still_queued_embarked_pulls,
        s.current_base_sha⟩, true)
    | .failedCreation =>
      if must_be_updated then
        (⟨s.cars.set idx (car.setState .failed), s.waiting_pulls, s.current_base_sha⟩,
          false)
      else
        (⟨s.cars.set idx (car.startCreate.setState .failed), s.waiting_pulls,
          s.current_base_sha⟩, false)
    | .ok q =>
      if must_be_updated then
        (⟨s.cars.set idx (car.setState .updated), s.waiting_pulls, s.current_base_sha⟩,
          false)
      else
        (⟨s.cars.set idx (car.startCreate.setQprn q), s.waiting_pulls,
          s.current_base_sha⟩, false)

/-! ### `utils.split_list` and `Train._split_failed_batches` (1435-1575) -/

/-- Modelled from the spec: `utils.split_list` (`mergify_engine/utils.py`
is not among the sources).  §4.3.1: "split `xs` into `parts` contiguous
sublists whose sizes differ by at most 1.  If `parts > len(xs)`, trailing
partitions are empty and skipped."  Each step takes `⌈len/parts⌉`
elements; empty trailing partitions are skipped.  (`parts = 0` never
occurs: the caller passes `max(2, speculative_checks)`.) -/
def split_list (l : List EmbarkedPull) (parts : Nat) : List (List EmbarkedPull) :=
  match l, parts with
  | [], _ => []
  | _ :: _, 0 => []
  | x :: xs, parts' + 1 =>
    (x :: xs).take (((x :: xs).length + parts') / (parts' + 1)) ::
      split_list ((x :: xs).drop (((x :: xs).length + parts') / (parts' + 1))) parts'

/-- The loop of `_split_failed_batches` over the partition groups
(lines 1496-1528): append one new car per group (parents = the failed
car's parents plus the groups already laid down, base and failure
history inherited), start checking it when `speculative_checks > 1` or
it is the first group (both creation exceptions are caught and logged,
so the loop continues).  Returns the final state, the accumulated
`parents` list and the next oracle index. -/
def splitLoop (rule : QueueRuleConfig) (oracle : Nat → StartOutcome) (car : TrainCar)
    (now : Int) :
    List (List EmbarkedPull) → Nat → List EmbarkedPull → Nat → TrainState →
      TrainState × List EmbarkedPull × Nat
  | [], _, parents, ctr, s => (s, parents, ctr)
  | pulls :: rest, pos, parents, ctr, s =>
    let newCar := TrainCar.new pulls pulls
      (car.parent_pull_request_numbers ++ parents.map EmbarkedPull.user_pull_request_number)
      car.initial_current_base_sha now (car.failure_history ++ [car])
    let s1 : TrainState := ⟨s.cars ++ [newCar], s.waiting_pulls, s.current_base_sha⟩
    if rule.speculative_checks > 1 ∨ pos = 0 then
      splitLoop rule oracle car now rest (pos + 1) (parents ++ pulls) (ctr + 1)
        (applyStartOutcome rule (oracle ctr) s1 (s1.cars.length - 1)).1
    else
      splitLoop rule oracle car now rest (pos + 1) (parents ++ pulls) ctr s1

/-- The walk of `_split_failed_batches` looking for the first car to
split (lines 1456-1463): accumulate `current_queue_position`; trigger on
the first car with `checks_conclusion == FAILURE`, all previous cars
succeeded, and more than one initial embarked pull.  Returns the
position *after* the car and the car. -/
def findSplitAux : List TrainCar → Nat → Bool → Option (Nat × TrainCar)
  | [], _, _ => none
  | c :: rest, pos, prevOk =>
    if c.checks_conclusion = .failure ∧ prevOk = true ∧
        1 < c.initial_embarked_pulls.length then
      some (pos + c.still_queued_embarked_pulls.length, c)
    else
      findSplitAux rest (pos + c.still_queued_embarked_pulls.length)
        (prevOk && decide (c.checks_conclusion = .success))

/-- The secondary pass of `_split_failed_batches` (lines 1548-1575):
when `cars[0]` has a non-empty failure history and is still `pending`
(speculative_checks = 1 hand-off), start checking it.  All three start
outcomes end the refresh step. -/
def secondaryPass (rules : String → Option QueueRuleConfig)
    (oracle : Nat → StartOutcome) (ctr : Nat) (s : TrainState) : Option TrainState :=
  match s.cars with
  | [] => some s
  | c :: _ =>
    if 0 < c.failure_history.length ∧ c.creation_state = .pending then
      match c.still_queued_embarked_pulls.head? with
      | none => none
      | some headEp =>
        match rules headEp.config.name with
        | none => some s
        | some rule => some (applyStartOutcome rule (oracle ctr) s 0).1
    else some s

/-- Main part of `_split_failed_batches` (after the single-car
shortcut): find the first failed multi-PR car with all previous cars
succeeded; slice the train just after it, drop it from the tail,
lay down one new car per non-empty partition group of
`still_queued_embarked_pulls[:-1]`, convert the failed car into the
residual car holding only its last still-queued pull and re-append it;
then run the secondary pass.  `none` models an uncaught `IndexError`
(empty `still_queued_embarked_pulls`). -/
def splitFailedBatchesMain (rules : String → Option QueueRuleConfig)
    (oracle : Nat → StartOutcome) (now : Int) (s : TrainState) : Option TrainState :=
  match findSplitAux s.cars 0 true with
  | none => secondaryPass rules oracle 0 s
  | some (pos, car) =>
    match car.still_queued_embarked_pulls.head? with
    | none => none
    | some headEp =>
      match rules headEp.config.name with
      | none => some s
      | some rule =>
        match car.still_queued_embarked_pulls.getLast? with
        | none => none
        | some lastEp =>
          let s1 := (sliceCars s pos).1
          let s2 : TrainState := ⟨s1.cars.dropLast, s1.waiting_pulls, s1.current_base_sha⟩
          let r := splitLoop rule oracle car now
            (split_list car.still_queued_embarked_pulls.dropLast
              (max 2 rule.speculative_checks)) 0 [] 0 s2
          let residual : TrainCar := .mk
            { car.data with
                parent_pull_request_numbers := car.parent_pull_request_numbers ++
                  r.2.1.map EmbarkedPull.user_pull_request_number
                still_queued_embarked_pulls := [lastEp]
                initial_embarked_pulls := [lastEp] }
            car.failure_history
          secondaryPass rules oracle r.2.2
            ⟨r.1.cars ++ [residual], r.1.waiting_pulls, r.1.current_base_sha⟩

/-- `Train._split_failed_batches(queue_rules)` (lines 1435-1575).  The
single-car single-PR shortcut (1436-1453) only emits a refresh signal;
otherwise the failed batch (if any) is split and the secondary pass
runs. -/
def splitFailedBatches (rules : String → Option QueueRuleConfig)
    (oracle : Nat → StartOutcome) (now : Int) (s : TrainState) : Option TrainState :=
  match s.cars with
  | [c] =>
    if c.checks_conclusion = .failure ∧ c.initial_embarked_pulls.length = 1 then
      some s
    else splitFailedBatchesMain rules oracle now s
  | _ => splitFailedBatchesMain rules oracle now s

/-! ### `Train._populate_cars` (lines 1577-1686) -/

/-- The car-creation loop of `_populate_cars` (lines 1627-1686), one
iteration per missing car: take the next batch from the waiting list;
return if it is empty, or not yet ready (neither full nor waited past
`batch_max_wait_time` — a delayed refresh is scheduled); otherwise build
the car (parents = all still-queued pulls of the current cars), append
it and start checking it.  `postponed` and `failedCreation` end the
loop. -/
def populateLoop (rule : QueueRuleConfig) (qname : String) (now : Int)
    (baseSha : String) (oracle : Nat → StartOutcome) :
    Nat → Nat → TrainState → Option TrainState
  | 0, _, s => some s
  | fuel + 1, ctr, s =>
    match getNextBatch s.waiting_pulls qname rule.batch_size with
    | none => none
    | some (pulls_to_check, remaining_pulls) =>
      match pulls_to_check with
      | [] => some s
      | firstPull :: _ =>
        if pulls_to_check.length ≠ rule.batch_size ∧
            now - firstPull.queued_at < rule.batch_max_wait_time then
          some s
        else
          let car := TrainCar.new pulls_to_check pulls_to_check
            ((carsPulls s.cars).map EmbarkedPull.user_pull_request_number)
            baseSha now []
          let s1 : TrainState := ⟨s.cars ++ [car], remaining_pulls, s.current_base_sha⟩
          match oracle ctr with
          | .postponed =>
            some (applyStartOutcome rule .postponed s1 (s1.cars.length - 1)).1
          | .failedCreation =>
            some (applyStartOutcome rule .failedCreation s1 (s1.cars.length - 1)).1
          | .ok q =>
            populateLoop rule qname now baseSha oracle fuel (ctr + 1)
              (applyStartOutcome rule (.ok q) s1 (s1.cars.length - 1)).1

/-- Body of `_populate_cars` after its early-return guard: find the head
embarked pull; ensure `_current_base_sha` (fetching the branch head —
`fetchedBase` — when it is unset or there are no cars); look up the head
queue rule (reporting a creation failure without touching the lists when
it vanished); then either slice down to `speculative_checks` cars or
fill the missing cars from the waiting list. -/
def populateCarsBody (rules : String → Option QueueRuleConfig) (now : Int)
    (fetchedBase : String) (oracle : Nat → StartOutcome) (s : TrainState) :
    Option TrainState :=
  match s.embarkedPulls.head? with
  | none => some s
  | some headPull =>
    let base : String :=
      if s.current_base_sha.isNone || s.cars.isEmpty then fetchedBase
      else s.current_base_sha.getD fetchedBase
    let s0 : TrainState := ⟨s.cars, s.waiting_pulls, some base⟩
    match rules headPull.config.name with
    | none => some s0
    | some rule =>
      let missing : Int := (rule.speculative_checks : Int) - s0.cars.length
      if missing < 0 then
        some (sliceCars s0 (stillCount (s0.cars.take rule.speculative_checks))).1
      else if 0 < missing ∧ s0.waiting_pulls ≠ [] then
        populateLoop rule headPull.config.name now base oracle missing.toNat 0 s0
      else some s0

/-- `Train._populate_cars(queue_rules)` (lines 1577-1686).  When the
last car is `failed` or has a `FAILURE` conclusion the train is hunting
for a culprit and nothing is touched. -/
def populateCars (rules : String → Option QueueRuleConfig) (now : Int)
    (fetchedBase : String) (oracle : Nat → StartOutcome) (s : TrainState) :
    Option TrainState :=
  match s.cars.getLast? with
  | some lastCar =>
    if lastCar.creation_state = .failed ∨ lastCar.checks_conclusion = .failure then
      some s
    else populateCarsBody rules now fetchedBase oracle s
  | none => populateCarsBody rules now fetchedBase oracle s

/-! ### Sample inputs used by witnesses and counterexamples -/

/-- A sample queue rule configuration. -/
def sampleRule : QueueRuleConfig :=
  { speculative_checks := 1
    batch_size := 1
    batch_max_wait_time := 0
    allow_inplace_checks := true
    allow_checks_interruption := true }

/-- A sample per-pull config in queue `q` with the given effective priority. -/
def sampleConfig (q : String) (prio : Int) : PullQueueConfig :=
  { name := q, effective_priority := prio, queue_config := sampleRule }

/-- A sample embarked pull. -/
def samplePull (n : Nat) (q : String) : EmbarkedPull :=
  { user_pull_request_number := n, config := sampleConfig q 0, queued_at := 0 }

/-- A sample freshly-created car holding the pulls with the given
numbers, all in queue `q`. -/
def sampleCar (ns : List Nat) : TrainCar :=
  TrainCar.new (ns.map (samplePull · "q")) (ns.map (samplePull · "q")) [] "base" 0 []

/-- An oracle under which every car creation succeeds. -/
def okOracle : Nat → StartOutcome := fun k => .ok (100 + k)

/-- A queue-rules mapping where every queue name resolves to `r`. -/
def constRules (r : QueueRuleConfig) : String → Option QueueRuleConfig :=
  fun _ => some r

/-- A queue rule with `speculative_checks = 1`, `batch_size = 5` (the
`1x5` rule of the unit tests). -/
def rule1x5 : QueueRuleConfig :=
  { speculative_checks := 1
    batch_size := 5
    batch_max_wait_time := 0
    allow_inplace_checks := true
    allow_checks_interruption := true }

/-- A pending car with a non-empty failure history (the
`speculative_checks = 1` hand-off situation handled by the secondary
pass of `_split_failed_batches`). -/
def pendingSplitCar : TrainCar :=
  TrainCar.new [samplePull 43 "q", samplePull 44 "q"]
    [samplePull 43 "q", samplePull 44 "q"] [] "base" 0 [sampleCar [99]]

/-- A failed car whose head pull has already merged away:
`initial_embarked_pulls = [1, 2]` but `still_queued_embarked_pulls = [2]`. -/
def partialCar : TrainCar :=
  (TrainCar.new [samplePull 1 "q", samplePull 2 "q"] [samplePull 2 "q"]
    [] "base" 0 []).setConclusion .failure

/-- An oracle under which every car creation is postponed. -/
def postponeOracle : Nat → StartOutcome := fun _ => .postponed

/-! ### `TrainCar.serialized` / `TrainCar.deserialize` (lines 202-292) and
`Train.load` / `Train.save` (lines 1118-1170) -/

/-- A serialized `TrainCar` document (`TrainCar.Serialized`), with key
*presence* modelled by `Option` where `deserialize` tests membership or
uses `.get`.  `embarked` bundles the `initial_embarked_pulls` and
`still_queued_embarked_pulls` keys (the code tests only the former and
then indexes both); `user_pull_request_number` / `config` / `queued_at`
are the old single-pull layout's keys; `state` is the old name of
`creation_state`; `head_branch` is doubly optional: outer `none` = key
absent (triggering recomputation), inner `none` = stored null.
`parent_pull_request_numbers`, `initial_current_base_sha` and
`queue_pull_request_number` are read with `data[...]` unconditionally,
so they are plain fields.  `checks_conclusion`,
`last_evaluated_conditions` and `has_timed_out` are read with `.get`,
where a missing key and a stored default are indistinguishable. -/
structure CarDocData where
  embarked : Option (List EmbarkedPull × List EmbarkedPull)
  user_pull_request_number : Option Nat
  config : Option PullQueueConfig
  queued_at : Option Int
  parent_pull_request_numbers : List Nat
  initial_current_base_sha : String
  creation_date : Option Int
  creation_state : Option TrainCarState
  state : Option TrainCarState
  checks_conclusion : Option Conclusion
  queue_pull_request_number : Option Nat
  head_branch : Option (Option String)
  last_checks : Option (List QueueCheck)
  last_evaluated_conditions : Option String
  has_timed_out : Option Bool
  deriving DecidableEq, Repr

/-- A car document together with its (recursively serialized, optionally
present) `failure_history`. -/
inductive CarDoc where
  | mk (data : CarDocData) (failure_history : Option (List CarDoc))

/-- `TrainCar._get_pulls_branch_ref` over a pull list: hyphen-join of the
PR numbers (lines 437-440). -/
def pullsBranchRefOf (eps : List EmbarkedPull) : String :=
  String.intercalate "-" (eps.map (fun ep => toString ep.user_pull_request_number))

mutual

/-- `TrainCar.serialized()` (lines 202-223): every key of the new layout
is written, the old layout's keys are not. -/
def serializeCar : TrainCar → CarDoc
  | .mk d fh =>
    .mk { embarked := some (d.initial_embarked_pulls, d.still_queued_embarked_pulls)
          user_pull_request_number := none
          config := none
          queued_at := none
          parent_pull_request_numbers := d.parent_pull_request_numbers
          initial_current_base_sha := d.initial_current_base_sha
          creation_date := some d.creation_date
          creation_state := some d.creation_state
          state := none
          checks_conclusion := some d.checks_conclusion
          queue_pull_request_number := d.queue_pull_request_number
          head_branch := some d.head_branch
          last_checks := some d.last_checks
          last_evaluated_conditions := d.last_evaluated_conditions
          has_timed_out := some d.has_timed_out }
      (some (serializeCars fh))

def serializeCars : List TrainCar → List CarDoc
  | [] => []
  | c :: rest => serializeCar c :: serializeCars rest

end

mutual

/-- `TrainCar.deserialize(train, data)` (lines 225-292).  `none` models
the `KeyError` a direct `data[...]` access raises on a missing key
(embarked pulls in neither layout, neither `creation_state` nor
`state`); `now` stands for `date.utcnow()`.  Missing `failure_history`,
`creation_date`, `last_checks`, `checks_conclusion`, `has_timed_out`
default to `[]` / `now` / `[]` / pending / `false`; a missing
`head_branch` key is recomputed with `_get_pulls_branch_ref`. -/
def deserializeCar (now : Int) : CarDoc → Option TrainCar
  | .mk d fhOpt =>
    match (match d.embarked with
           | some eps => some eps
           | none =>
             match d.user_pull_request_number, d.config, d.queued_at with
             | some n, some cfg, some qa =>
               some ([EmbarkedPull.mk n cfg qa], [EmbarkedPull.mk n cfg qa])
             | _, _, _ => none) with
    | none => none
    | some (initial, still) =>
      match (match d.creation_state with
             | some cs => some cs
             | none => d.state) with
      | none => none
      | some cs =>
        match (match fhOpt with
               | none => some []
               | some l => deserializeCars now l) with
        | none => none
        | some fh =>
          some (.mk
            { initial_embarked_pulls := initial
              still_queued_embarked_pulls := still
              parent_pull_request_numbers := d.parent_pull_request_numbers
              initial_current_base_sha := d.initial_current_base_sha
              creation_date := d.creation_date.getD now
              creation_state := cs
              checks_conclusion := d.checks_conclusion.getD .pending
              queue_pull_request_number := d.queue_pull_request_number
              head_branch :=
                match d.head_branch with
                | some hb => hb
                | none => some (pullsBranchRefOf initial)
              last_checks := d.last_checks.getD []
              last_evaluated_conditions := d.last_evaluated_conditions
              has_timed_out := d.has_timed_out.getD false }
            fh)

def deserializeCars (now : Int) : List CarDoc → Option (List TrainCar)
  | [] => some []
  | doc :: rest =>
    match deserializeCar now doc with
    | none => none
    | some car =>
      match deserializeCars now rest with
      | none => none
      | some cars => some (car :: cars)

end

/-- The `Train.Serialized` document stored under the train's Redis hash
key. -/
structure TrainDoc where
  waiting_pulls : List EmbarkedPull
  current_base_sha : Option String
  cars : List CarDoc

/-- `Train.save()` (lines 1155-1170): when the train holds a waiting
pull or a car, write the document; otherwise *delete* the hash field
(`hdel`), so nothing is stored (`none`). -/
def trainSave (s : TrainState) : Option TrainDoc :=
  if s.waiting_pulls.isEmpty && s.cars.isEmpty then none
  else some { waiting_pulls := s.waiting_pulls
              current_base_sha := s.current_base_sha
              cars := serializeCars s.cars }

/-- `Train.load(train_raw)` (lines 1118-1131): a missing/empty raw value
resets the train to empty with `current_base_sha = None`; otherwise the
three fields are read back (`none` propagates a `deserialize` crash). -/
def trainLoad (now : Int) : Option TrainDoc → Option TrainState
  | none => some ⟨[], [], none⟩
  | some doc =>
    match deserializeCars now doc.cars with
    | none => none
    | some cars => some ⟨cars, doc.waiting_pulls, doc.current_base_sha⟩

/-! ### The HTTP retry policy (`connectivity_issue_retry`, http.py
lines 103-121 and 173-184) -/

/-- A `Retry-After` response header as `wait_retry_after_header` reads
it (lines 112-121): absent, an integer-second value (`value.isdigit()`),
an HTTP date (modelled by its timestamp), or an unparseable string. -/
inductive RetryAfter where
  | absent
  | seconds (n : Nat)
  | httpDate (d : Int)
  | unparseable
  deriving DecidableEq, Repr

/-- What one attempt of `AsyncClient.request` produces before
`raise_for_status`: a transport error (`httpx.RequestError`) or a
response with a status code and `Retry-After` header. -/
inductive AttemptOutcome where
  | transport
  | response (status : Nat) (retryAfter : RetryAfter)
  deriving DecidableEq, Repr

/-- The exception (if any) escaping one attempt: the transport error
itself, or the `HTTPStatusError` subclass `raise_for_status` raises,
carrying its response's status and `Retry-After` header. -/
inductive HttpError where
  | requestError
  | statusError (cls : ExcCls) (status : Nat) (retryAfter : RetryAfter)
  deriving DecidableEq, Repr

/-- One attempt's result: `none` = the response was returned
(no exception), `some e` = exception `e` escaped. -/
def attemptResult : AttemptOutcome → Option HttpError
  | .transport => some .requestError
  | .response status ra =>
    match raise_for_status status with
    | none => none
    | some cls => some (.statusError cls status ra)

/-- `tenacity.retry_if_exception_type((RequestError, HTTPServerSideError,
HTTPTooManyRequests))` (lines 175-177): retry exactly on these exception
classes (`isinstance` covers subclasses). -/
def shouldRetry : HttpError → Bool
  | .requestError => true
  | .statusError cls _ _ => cls.isServerSide || cls == ExcCls.tooManyRequests

/-- `wait_retry_after_header.__call__` (lines 103-121), over `ℚ` (the
Python float): 0 when there is no exception, the exception is not an
`HTTPStatusError`, the header is missing, or its date does not parse;
the integer value for a digit string; `max(0, d - utcnow)` for a
date. -/
def wait_retry_after_header (now : Int) : Option HttpError → ℚ
  | none => 0
  | some .requestError => 0
  | some (.statusError _ _ ra) =>
    match ra with
    | .absent => 0
    | .seconds n => (n : ℚ)
    | .httpDate d => max 0 ((d : ℚ) - (now : ℚ))
    | .unparseable => 0

/-- `tenacity.wait_exponential(multiplier=0.2)` at (1-based) attempt
number `k`: `0.2 · 2^k`. -/
def wait_exponential (multiplier : ℚ) (k : Nat) : ℚ := multiplier * 2 ^ k

/-- Modelled from the spec: the retry driver itself is `tenacity.retry`
(`reraise=True`, `wait_combine`, `stop_after_attempt(5)`), whose code is
not among the sources.  §6.1: "Retry policy applied uniformly: 5
attempts, reraising last error; wait = `max(Retry-After seconds if
present, 0) + exponential(0.2·2^k)`; retry on transport errors, 5xx,
and 429."  `attempts k` is the outcome of attempt number `k` (1-based);
`fuel` counts the attempts still allowed.  Attempts run until one
succeeds, a non-retryable error escapes, or the 5-attempt budget is
exhausted — the last error is then re-raised unchanged; the wait before
each re-attempt (`Retry-After` part plus exponential part) is
accumulated.  Returns (attempts made, final result, waits). -/
def retryGo (now : Int) (attempts : Nat → AttemptOutcome) :
    Nat → Nat → List ℚ → Nat × Option HttpError × List ℚ
  | 0, k, waits => (k - 1, none, waits)
  | fuel + 1, k, waits =>
    match attemptResult (attempts k) with
    | none => (k, none, waits)
    | some e =>
      if shouldRetry e = false ∨ fuel = 0 then (k, some e, waits)
      else retryGo now attempts fuel (k + 1)
        (waits ++ [wait_retry_after_header now (some e) + wait_exponential (2 / 10) k])

/-- `connectivity_issue_retry` applied to a request: run up to 5
attempts starting at attempt number 1. -/
def connectivity_issue_retry (now : Int) (attempts : Nat → AttemptOutcome) :
    Nat × Option HttpError × List ℚ :=
  retryGo now attempts 5 1 []
end MergeTrain

namespace MergeTrain

/-! ## Claim theorems for the HTTP layer -/

/-- **C10.** For every status code, `raise_for_status` raises an
`HTTPClientSideError` (with the mapped subclass at 401/403/404/429) iff
the status is in 400–499, raises an `HTTPServerSideError`
(`HTTPServiceUnavailable` at 503) iff the status is in 500–599, and
returns without raising for every other status. -/
theorem raise_for_status_classification (status : Nat) :
    ((∃ c, raise_for_status status = some c ∧ c.isClientSide = true) ↔
      (400 ≤ status ∧ status ≤ 499)) ∧
    ((∃ c, raise_for_status status = some c ∧ c.isServerSide = true) ↔
      (500 ≤ status ∧ status ≤ 599)) ∧
    (raise_for_status status = none ↔ (status < 400 ∨ 600 ≤ status)) ∧
    raise_for_status 401 = some .unauthorized ∧
    raise_for_status 403 = some .forbidden ∧
    raise_for_status 404 = some .notFound ∧
    raise_for_status 429 = some .tooManyRequests ∧
    raise_for_status 503 = some .serviceUnavailable := by
  have heq : raise_for_status status =
      if status = 401 then some ExcCls.unauthorized
      else if status = 403 then some ExcCls.forbidden
      else if status = 404 then some ExcCls.notFound
      else if status = 429 then some ExcCls.tooManyRequests
      else if 400 ≤ status ∧ status ≤ 499 then some ExcCls.clientSideError
      else if status = 503 then some ExcCls.serviceUnavailable
      else if 500 ≤ status ∧ status ≤ 599 then some ExcCls.serverSideError
      else none := by
    unfold raise_for_status is_client_error is_server_error STATUS_CODE_TO_EXC
    split_ifs <;> first | rfl | omega
  refine ⟨?_, ?_, ?_, by decide, by decide, by decide, by decide, by decide⟩
  · rw [heq]; split_ifs <;> simp [ExcCls.isClientSide] <;> omega
  · rw [heq]; split_ifs <;> simp [ExcCls.isServerSide] <;> omega
  · rw [heq]; split_ifs <;> simp <;> omega

/-! ## Claim theorems for `_get_next_batch` (C6) -/

theorem matchingPrefixLen_le (q : String) :
    ∀ l : List EmbarkedPull, matchingPrefixLen q l ≤ l.length := by
  intro l
  induction l with
  | nil => simp [matchingPrefixLen]
  | cons p rest ih =>
    unfold matchingPrefixLen
    split
    · simp
    · simp only [List.length_cons]
      omega

theorem take_matchingPrefixLen (q : String) :
    ∀ l : List EmbarkedPull,
      l.take (matchingPrefixLen q l) = l.takeWhile (fun p => p.config.name == q) := by
  intro l
  induction l with
  | nil => simp [matchingPrefixLen]
  | cons p rest ih =>
    unfold matchingPrefixLen
    by_cases h : p.config.name = q
    · simp only [h, ne_eq, not_true_eq_false, if_false, List.take_succ_cons,
        List.takeWhile_cons, beq_self_eq_true, if_true, ih]
    · have hb : (p.config.name == q) = false := by
        simp only [beq_eq_false_iff_ne, ne_eq]
        exact h
      simp [h, List.takeWhile_cons, hb]

/-- **C6 (counterexample).** The claim quantifies over *every*
`batch_size`; at `batch_size = 0` with a non-empty pull list the code
raises `UnboundLocalError` (the loop variable `_i` is never bound)
instead of returning the pair `([], pulls)` the claim requires. -/
theorem getNextBatch_cex :
    getNextBatch [samplePull 1 "q"] "q" 0 = none := by
  rfl

/-- **C6 (amended).** For every `batch_size ≥ 1`, `_get_next_batch`
returns the longest prefix of `pulls` of length at most `batch_size`
whose members all share queue name `q`, together with the rest, and the
two concatenate back to `pulls`; on an empty list it returns two empty
lists. -/
theorem getNextBatch_spec (pulls : List EmbarkedPull) (q : String) (b : Nat)
    (hb : 1 ≤ b) :
    getNextBatch [] q b = some ([], []) ∧
    ∃ batch rest, getNextBatch pulls q b = some (batch, rest) ∧
      batch = (pulls.take b).takeWhile (fun p => p.config.name == q) ∧
      batch ++ rest = pulls := by
  refine ⟨by simp [getNextBatch], ?_⟩
  match pulls with
  | [] => exact ⟨[], [], by simp [getNextBatch], by simp, by simp⟩
  | p :: rest =>
    have hne : (p :: rest : List EmbarkedPull) ≠ [] := by simp
    have hsl : (p :: rest).take b ≠ [] := by
      match b with
      | Nat.succ b' => simp
    refine ⟨(p :: rest).take (matchingPrefixLen q ((p :: rest).take b)),
      (p :: rest).drop (matchingPrefixLen q ((p :: rest).take b)), ?_, ?_, ?_⟩
    · simp only [getNextBatch, if_neg hne, if_neg hsl]
    · have hle : matchingPrefixLen q ((p :: rest).take b) ≤ ((p :: rest).take b).length :=
        matchingPrefixLen_le q _
      calc (p :: rest).take (matchingPrefixLen q ((p :: rest).take b))
          = ((p :: rest).take b).take (matchingPrefixLen q ((p :: rest).take b)) := by
            rw [List.take_take]
            congr 1
            have : matchingPrefixLen q ((p :: rest).take b) ≤ b := by
              refine le_trans hle ?_
              exact List.length_take_le b (p :: rest)
            omega
        _ = ((p :: rest).take b).takeWhile (fun p => p.config.name == q) :=
            take_matchingPrefixLen q _
    · exact List.take_append_drop _ _

/-- **C6 witness.** The amended theorem applied at a concrete input. -/
theorem getNextBatch_spec_witness :
    getNextBatch [] "q" 5 = some ([], []) ∧
    ∃ batch rest,
      getNextBatch [samplePull 1 "q", samplePull 2 "r"] "q" 5 = some (batch, rest) ∧
      batch = (([samplePull 1 "q", samplePull 2 "r"].take 5)).takeWhile
        (fun p => p.config.name == "q") ∧
      batch ++ rest = [samplePull 1 "q", samplePull 2 "r"] :=
  getNextBatch_spec [samplePull 1 "q", samplePull 2 "r"] "q" 5 (by decide)

/-! ## Claim theorems for `_slice_cars` (C5) -/

theorem carsPulls_nil : carsPulls [] = [] := rfl

theorem carsPulls_cons (c : TrainCar) (rest : List TrainCar) :
    carsPulls (c :: rest) = c.still_queued_embarked_pulls ++ carsPulls rest := by
  simp [carsPulls]

theorem carsPulls_append (a b : List TrainCar) :
    carsPulls (a ++ b) = carsPulls a ++ carsPulls b := by
  simp [carsPulls]

theorem stillCount_cons (c : TrainCar) (rest : List TrainCar) :
    stillCount (c :: rest) = c.still_queued_embarked_pulls.length + stillCount rest := by
  simp [stillCount]

/-- Once the running `new_queue_size` is negative every remaining car is
torn down and all its pulls roll back. -/
theorem sliceAux_neg :
    ∀ (cars : List TrainCar) (n : Int), n < 0 →
      sliceCarsAux n cars = ([], carsPulls cars, cars) := by
  intro cars
  induction cars with
  | nil => intro n _; rfl
  | cons c rest ih =>
    intro n hn
    have hn' : n - (c.still_queued_embarked_pulls.length : Int) < 0 := by
      have : (0 : Int) ≤ c.still_queued_embarked_pulls.length := Int.ofNat_nonneg _
      omega
    simp only [sliceCarsAux, ih _ hn']
    rw [if_neg (by omega)]
    simp [carsPulls_cons]

/-- Full characterisation of the `_slice_cars` loop for a non-negative
initial `new_queue_size`: the kept cars are the longest prefix whose
still-queued total fits, the rest are torn down, and the rollback list is
their pulls in order. -/
theorem sliceAux_spec :
    ∀ (cars : List TrainCar) (n : Int), 0 ≤ n →
      (sliceCarsAux n cars).1 = cars.take (sliceCarsAux n cars).1.length ∧
      (stillCount (sliceCarsAux n cars).1 : Int) ≤ n ∧
      ((sliceCarsAux n cars).1.length < cars.length →
        n < stillCount (cars.take ((sliceCarsAux n cars).1.length + 1))) ∧
      (sliceCarsAux n cars).2.2 = cars.drop (sliceCarsAux n cars).1.length ∧
      (sliceCarsAux n cars).2.1 = carsPulls (sliceCarsAux n cars).2.2 := by
  intro cars
  induction cars with
  | nil =>
    intro n hn
    refine ⟨by simp [sliceCarsAux], ?_,
      by simp [sliceCarsAux], by simp [sliceCarsAux], by simp [sliceCarsAux, carsPulls]⟩
    simp only [sliceCarsAux, stillCount, List.map_nil, List.sum_nil, Nat.cast_zero]
    exact hn
  | cons c rest ih =>
    intro n hn
    by_cases hge : 0 ≤ n - (c.still_queued_embarked_pulls.length : Int)
    · have hbranch : sliceCarsAux n (c :: rest) =
          (c :: (sliceCarsAux (n - c.still_queued_embarked_pulls.length) rest).1,
           (sliceCarsAux (n - c.still_queued_embarked_pulls.length) rest).2.1,
           (sliceCarsAux (n - c.still_queued_embarked_pulls.length) rest).2.2) := by
        simp only [sliceCarsAux]
        rw [if_pos hge]
      obtain ⟨ih1, ih2, ih3, ih4, ih5⟩ :=
        ih (n - c.still_queued_embarked_pulls.length) hge
      rw [hbranch]
      refine ⟨?_, ?_, ?_, ?_, ?_⟩
      · simp only [List.length_cons, List.take_succ_cons]
        rw [← ih1]
      · rw [stillCount_cons]
        push_cast
        omega
      · intro hlen
        simp only [List.length_cons, List.take_succ_cons, stillCount_cons] at *
        have := ih3 (by omega)
        push_cast
        omega
      · simp only [List.length_cons, List.drop_succ_cons]
        exact ih4
      · exact ih5
    · have hneg : n - (c.still_queued_embarked_pulls.length : Int) < 0 := by omega
      have hbranch : sliceCarsAux n (c :: rest) =
          ([], c.still_queued_embarked_pulls ++ carsPulls rest, c :: rest) := by
        simp only [sliceCarsAux]
        rw [sliceAux_neg rest _ hneg, if_neg (by omega)]
      rw [hbranch]
      refine ⟨by simp, ?_, ?_, by simp, by simp [carsPulls_cons]⟩
      · simp only [stillCount, List.map_nil, List.sum_nil, Nat.cast_zero]
        exact hn
      · intro _
        have htake : (c :: rest).take (([] : List TrainCar).length + 1) = [c] := by simp
        rw [htake]
        have hone : stillCount [c] = c.still_queued_embarked_pulls.length := by
          simp [stillCount]
        rw [hone]
        omega

/-- **C5.** `_slice_cars(n, reason)` keeps exactly the longest prefix of
cars whose total still-queued count is at most `n`, tears down every
other car, prepends the torn-down cars' still-queued pulls (in original
car order) to `waiting_pulls`, preserves the overall embarked-pull
sequence (hence the multiset of PR numbers), and leaves
`current_base_sha` unchanged. -/
theorem sliceCars_spec (s : TrainState) (n : Nat) :
    (sliceCars s n).1.cars = s.cars.take (sliceCars s n).1.cars.length ∧
    (stillCount (sliceCars s n).1.cars : Int) ≤ (n : Int) ∧
    ((sliceCars s n).1.cars.length < s.cars.length →
      (n : Int) < stillCount (s.cars.take ((sliceCars s n).1.cars.length + 1))) ∧
    (sliceCars s n).2 = s.cars.drop (sliceCars s n).1.cars.length ∧
    (sliceCars s n).1.waiting_pulls = carsPulls (sliceCars s n).2 ++ s.waiting_pulls ∧
    (sliceCars s n).1.embarkedPulls = s.embarkedPulls ∧
    (sliceCars s n).1.current_base_sha = s.current_base_sha := by
  obtain ⟨h1, h2, h3, h4, h5⟩ := sliceAux_spec s.cars n (Int.natCast_nonneg n)
  have e1 : (sliceCars s n).1.cars = (sliceCarsAux (n : Int) s.cars).1 := rfl
  have e2 : (sliceCars s n).1.waiting_pulls =
      (sliceCarsAux (n : Int) s.cars).2.1 ++ s.waiting_pulls := rfl
  have e3 : (sliceCars s n).2 = (sliceCarsAux (n : Int) s.cars).2.2 := rfl
  have e4 : (sliceCars s n).1.current_base_sha = s.current_base_sha := rfl
  refine ⟨by rw [e1]; exact h1, by rw [e1]; exact h2, by rw [e1]; exact h3,
    by rw [e3, e1]; exact h4, ?_, ?_, e4⟩
  · rw [e2, e3, h5]
  · show carsPulls (sliceCars s n).1.cars ++ (sliceCars s n).1.waiting_pulls =
      carsPulls s.cars ++ s.waiting_pulls
    rw [e1, e2, h5, h4, ← List.append_assoc, ← carsPulls_append]
    set K := (sliceCarsAux (n : Int) s.cars).1.length with hK
    rw [h1, List.take_append_drop]

/-- **C5 witness.** The slicing theorem applied to a concrete two-car
train sliced at position 1: the first car (one pull) is kept, the second
car (two pulls) is torn down and its pulls roll back to the front of the
waiting list. -/
theorem sliceCars_spec_witness :
    (sliceCars ⟨[sampleCar [1], sampleCar [2, 3]], [samplePull 4 "q"], some "b"⟩ 1).1.cars =
      ([sampleCar [1], sampleCar [2, 3]] : List TrainCar).take
        (sliceCars ⟨[sampleCar [1], sampleCar [2, 3]], [samplePull 4 "q"], some "b"⟩ 1).1.cars.length ∧
    (stillCount (sliceCars ⟨[sampleCar [1], sampleCar [2, 3]], [samplePull 4 "q"], some "b"⟩ 1).1.cars : Int) ≤ (1 : Int) := by
  obtain ⟨h1, h2, _⟩ :=
    sliceCars_spec ⟨[sampleCar [1], sampleCar [2, 3]], [samplePull 4 "q"], some "b"⟩ 1
  exact ⟨h1, h2⟩

/-! ## Claim theorems for `remove_pull` (C3) -/

/-- **C3.** Fast path of `remove_pull`: when the removed PR is merged,
is the first still-queued embarked pull of `cars[0]`, the train is
synced with the base branch, and the PR carries a merge commit SHA, the
call pops exactly that pull from `cars[0]`, drops the car (tearing down
its synthetic branch) only when it becomes empty, sets
`current_base_sha` to the merge commit, and leaves every later car and
the waiting pulls unchanged. -/
theorem removePull_fast (s : TrainState) (p : PullView) (c : TrainCar)
    (rest : List TrainCar) (e : EmbarkedPull) (stail : List EmbarkedPull) (sha : String)
    (hcars : s.cars = c :: rest)
    (hstill : c.still_queued_embarked_pulls = e :: stail)
    (hm : p.merged = true)
    (hn : p.number = e.user_pull_request_number)
    (hsha : p.merge_commit_sha = some sha) :
    removePull s p true =
      some (⟨if stail = [] then rest else c.setStill stail :: rest,
             s.waiting_pulls, some sha⟩,
            if stail = [] then [c.setStill stail] else []) := by
  unfold removePull
  rw [if_pos hm, hcars]
  simp only [hstill, hsha]
  rw [if_pos (And.intro hn (by trivial))]
  by_cases h : stail = []
  · simp only [if_pos h]
  · simp only [if_neg h]

/-- **C3 witness.** The fast path applied to a concrete train: merging
PR 1 (single pull of the head car) drops the head car, keeps the second
car and the waiting pull, and moves `current_base_sha` to "S1". -/
theorem removePull_fast_witness :
    removePull ⟨[sampleCar [1], sampleCar [2, 3]], [samplePull 9 "q"], some "base"⟩
        ⟨1, true, some "S1"⟩ true =
      some (⟨if ([] : List EmbarkedPull) = [] then [sampleCar [2, 3]]
               else (sampleCar [1]).setStill [] :: [sampleCar [2, 3]],
             [samplePull 9 "q"], some "S1"⟩,
            if ([] : List EmbarkedPull) = [] then [(sampleCar [1]).setStill []] else []) :=
  removePull_fast ⟨[sampleCar [1], sampleCar [2, 3]], [samplePull 9 "q"], some "base"⟩
    ⟨1, true, some "S1"⟩ (sampleCar [1]) [sampleCar [2, 3]] (samplePull 1 "q") [] "S1"
    rfl rfl rfl rfl rfl

/-! ## Claim theorems for `add_pull` (C4) -/

theorem iterEmbarked_fst (s : TrainState) :
    (iterEmbarkedWithCar s).map Prod.fst = s.embarkedPulls := by
  have h1 : ∀ cars : List TrainCar,
      ((cars.map (fun c =>
        c.still_queued_embarked_pulls.map (fun ep => (ep, some c)))).flatten).map Prod.fst
        = carsPulls cars := by
    intro cars
    induction cars with
    | nil => rfl
    | cons c rest ih =>
      simp only [List.map_cons, List.flatten_cons, List.map_append, List.map_map,
        ih, carsPulls_cons]
      congr 1
      have hcomp : (Prod.fst ∘ fun ep => (ep, (some c : Option TrainCar))) =
          (id : EmbarkedPull → EmbarkedPull) := by
        funext ep; rfl
      rw [hcomp, List.map_id]
  have h2 : (s.waiting_pulls.map
      (fun ep => (ep, (none : Option TrainCar)))).map Prod.fst = s.waiting_pulls := by
    rw [List.map_map]
    have hcomp : (Prod.fst ∘ fun ep => (ep, (none : Option TrainCar))) =
        (id : EmbarkedPull → EmbarkedPull) := by
      funext ep; rfl
    rw [hcomp, List.map_id]
  unfold iterEmbarkedWithCar TrainState.embarkedPulls
  rw [List.map_append, h1, h2]

/-- The `add_pull` scanning predicate for a fresh PR coincides with the
spec-side "first interruptible, strictly-lower-priority position". -/
theorem scanAux_keep (pr : Nat) (cfg : PullQueueConfig) :
    ∀ (l : List (EmbarkedPull × Option TrainCar)) (pos : Nat) (best : Int),
      best ≠ -1 → (∀ x ∈ l, x.1.user_pull_request_number ≠ pr) →
      addPullScanAux pr cfg l pos best = .insert best := by
  intro l
  induction l with
  | nil => intro pos best _ _; rfl
  | cons hd tl ih =>
    intro pos best hbest hne
    obtain ⟨ep, car⟩ := hd
    have h1 : ep.user_pull_request_number ≠ pr := hne (ep, car) (by simp)
    unfold addPullScanAux
    rw [if_neg h1, if_neg (by rintro ⟨h, -⟩; exact hbest h)]
    exact ih (pos + 1) best hbest (fun x hx => hne x (by simp [hx]))

theorem scanAux_none (pr : Nat) (cfg : PullQueueConfig) :
    ∀ (l : List (EmbarkedPull × Option TrainCar)) (pos : Nat),
      (∀ x ∈ l, x.1.user_pull_request_number ≠ pr) →
      addPullScanAux pr cfg l pos (-1) =
        .insert (match l.findIdx? (fun x =>
            carCanBeInterrupted cfg x.2 &&
              decide (cfg.effective_priority > x.1.config.effective_priority)) pos with
          | none => -1
          | some j => (j : Int)) := by
  intro l
  induction l with
  | nil => intro pos _; rfl
  | cons hd tl ih =>
    intro pos hne
    obtain ⟨ep, car⟩ := hd
    have h1 : ep.user_pull_request_number ≠ pr := hne (ep, car) (by simp)
    have htl : ∀ x ∈ tl, x.1.user_pull_request_number ≠ pr :=
      fun x hx => hne x (by simp [hx])
    unfold addPullScanAux
    rw [if_neg h1]
    by_cases hP : (carCanBeInterrupted cfg car &&
        decide (cfg.effective_priority > ep.config.effective_priority)) = true
    · have hP' := hP
      simp only [Bool.and_eq_true, decide_eq_true_eq] at hP'
      rw [if_pos ⟨rfl, hP'.2, hP'.1⟩]
      rw [scanAux_keep pr cfg tl (pos + 1) pos (by omega) htl]
      rw [List.findIdx?_cons, if_pos hP]
    · have hcond : ¬((-1 : Int) = -1 ∧
          cfg.effective_priority > ep.config.effective_priority ∧
          carCanBeInterrupted cfg car = true) := by
        rintro ⟨-, h2, h3⟩
        exact hP (by simp [h3, h2])
      rw [if_neg hcond, ih (pos + 1) htl]
      rw [List.findIdx?_cons, if_neg (by simpa using hP)]

theorem length_carsPulls (cars : List TrainCar) :
    (carsPulls cars).length = stillCount cars := by
  simp only [carsPulls, stillCount, List.length_flatten, List.map_map]
  rfl

theorem insertIdx_append_ge (x : EmbarkedPull) :
    ∀ (a b : List EmbarkedPull) (p : Nat), a.length ≤ p →
      (a ++ b).insertIdx p x = a ++ b.insertIdx (p - a.length) x := by
  intro a
  induction a with
  | nil => intro b p _; simp
  | cons y a' ih =>
    intro b p hp
    match p, hp with
    | p' + 1, hp =>
      simp only [List.cons_append, List.insertIdx_succ_cons, List.length_cons]
      rw [ih b p' (by simpa using hp)]
      have harith : p' + 1 - (a'.length + 1) = p' - a'.length := by omega
      rw [harith]

/-- **C4.** `add_pull` position choice for a PR not already embarked:
with `bestPositionSpec` the spec-side "first position that is
interruptible and whose occupant has strictly lower effective priority",
if no such position exists the PR is appended at the end of
`waiting_pulls` with no car touched; otherwise the train's concatenated
embarked sequence becomes the old sequence with the new pull inserted at
exactly that position (cars above the position are kept, the rest are
sliced into the waiting region first). -/
theorem addPull_spec (s : TrainState) (pr : Nat) (cfg : PullQueueConfig) (now : Int)
    (hnew : pr ∉ s.pullNumbers) :
    (bestPositionSpec s cfg = none →
      addPull s pr cfg now =
        some (⟨s.cars, s.waiting_pulls ++ [⟨pr, cfg, now⟩], s.current_base_sha⟩, [])) ∧
    (∀ p, bestPositionSpec s cfg = some p →
      ∃ t d, addPull s pr cfg now = some (t, d) ∧
        t.embarkedPulls = s.embarkedPulls.insertIdx p ⟨pr, cfg, now⟩ ∧
        t.cars = s.cars.take t.cars.length ∧
        t.current_base_sha = s.current_base_sha) := by
  have hne : ∀ x ∈ iterEmbarkedWithCar s, x.1.user_pull_request_number ≠ pr := by
    intro x hx heq
    apply hnew
    have hmem : x.1 ∈ s.embarkedPulls := by
      rw [← iterEmbarked_fst]
      exact List.mem_map_of_mem Prod.fst hx
    have : x.1.user_pull_request_number ∈ s.pullNumbers :=
      List.mem_map_of_mem EmbarkedPull.user_pull_request_number hmem
    rwa [heq] at this
  have hscan := scanAux_none pr cfg (iterEmbarkedWithCar s) 0 hne
  constructor
  · intro hb
    unfold bestPositionSpec at hb
    rw [hb] at hscan
    have hscan2 : addPullScanAux pr cfg (iterEmbarkedWithCar s) 0 (-1) =
        .insert (-1) := by rw [hscan]
    unfold addPull addPullScan
    rw [hscan2]
    rfl
  · intro p hb
    unfold bestPositionSpec at hb
    rw [hb] at hscan
    have hscan2 : addPullScanAux pr cfg (iterEmbarkedWithCar s) 0 (-1) =
        .insert (p : Int) := by rw [hscan]
    have hpneg : ¬((p : Int) = -1) := by omega
    obtain ⟨h1, h2, h3, h4, h5⟩ := sliceAux_spec s.cars p (Int.natCast_nonneg p)
    set K := (sliceCarsAux (p : Int) s.cars).1.length with hK
    have hsplit : (sliceCarsAux (p : Int) s.cars).1 ++
        (sliceCarsAux (p : Int) s.cars).2.2 = s.cars := by
      rw [h1, h4]
      exact List.take_append_drop K s.cars
    have hnle : stillCount (sliceCarsAux (p : Int) s.cars).1 ≤ p := by
      exact_mod_cast h2
    have htoNat : (((p : Int)) -
        ((stillCount (sliceCarsAux (p : Int) s.cars).1 : Int))).toNat =
        p - stillCount (sliceCarsAux (p : Int) s.cars).1 := by
      omega
    refine ⟨⟨(sliceCarsAux (p : Int) s.cars).1,
      ((sliceCarsAux (p : Int) s.cars).2.1 ++ s.waiting_pulls).insertIdx
        (p - stillCount (sliceCarsAux (p : Int) s.cars).1) ⟨pr, cfg, now⟩,
      s.current_base_sha⟩, (sliceCarsAux (p : Int) s.cars).2.2, ?_, ?_, h1, rfl⟩
    · unfold addPull addPullScan
      rw [hscan2]
      have e2 : (sliceCars s (p : Int)).1.waiting_pulls =
          (sliceCarsAux (p : Int) s.cars).2.1 ++ s.waiting_pulls := rfl
      simp only [if_neg hpneg]
      rw [e2]
      rw [show stillCount (sliceCars s (p : Int)).1.cars =
        stillCount (sliceCarsAux (p : Int) s.cars).1 from rfl]
      rw [htoNat]
      rfl
    · show carsPulls (sliceCarsAux (p : Int) s.cars).1 ++
        ((sliceCarsAux (p : Int) s.cars).2.1 ++ s.waiting_pulls).insertIdx
          (p - stillCount (sliceCarsAux (p : Int) s.cars).1) ⟨pr, cfg, now⟩ =
        (carsPulls s.cars ++ s.waiting_pulls).insertIdx p ⟨pr, cfg, now⟩
      have hcp : carsPulls s.cars = carsPulls (sliceCarsAux (p : Int) s.cars).1 ++
          carsPulls (sliceCarsAux (p : Int) s.cars).2.2 := by
        rw [← carsPulls_append, hsplit]
      rw [h5, hcp, List.append_assoc]
      rw [insertIdx_append_ge _ (carsPulls (sliceCarsAux (p : Int) s.cars).1) _ p
        (by rw [length_carsPulls]; exact hnle)]
      rw [length_carsPulls]

/-- **C4 witness.** The theorem applied to a concrete train: PR 5 with
effective priority 10 preempts the pending head car holding PR 1
(priority 0), landing at position 0. -/
theorem addPull_spec_witness :
    ∃ t d, addPull ⟨[sampleCar [1]], [samplePull 2 "q"], none⟩ 5 (sampleConfig "q" 10) 7 =
        some (t, d) ∧
      t.embarkedPulls =
        (TrainState.embarkedPulls ⟨[sampleCar [1]], [samplePull 2 "q"], none⟩).insertIdx 0
          ⟨5, sampleConfig "q" 10, 7⟩ ∧
      t.cars = ([sampleCar [1]] : List TrainCar).take t.cars.length ∧
      t.current_base_sha = none :=
  (addPull_spec ⟨[sampleCar [1]], [samplePull 2 "q"], none⟩ 5 (sampleConfig "q" 10) 7
    (by decide)).2 0 (by rfl)

/-! ## Lemmas about starting cars and the splitter (for C1, C2, C7) -/

theorem stillCount_append (a b : List TrainCar) :
    stillCount (a ++ b) = stillCount a + stillCount b := by
  simp [stillCount]

/-- Slicing at exactly the still-queued total of a prefix `A` keeps `A`
and tears down the rest, provided every later car still holds a pull. -/
theorem sliceAux_exact :
    ∀ (A B : List TrainCar), (∀ b ∈ B, b.still_queued_embarked_pulls ≠ []) →
      sliceCarsAux (stillCount A : Int) (A ++ B) = (A, carsPulls B, B) := by
  intro A
  induction A with
  | nil =>
    intro B hB
    match B with
    | [] => rfl
    | b :: B' =>
      have hlen : b.still_queued_embarked_pulls.length ≠ 0 := by
        simpa using fun h => hB b (by simp) (List.eq_nil_of_length_eq_zero h)
      have hneg : (stillCount ([] : List TrainCar) : Int) -
          (b.still_queued_embarked_pulls.length : Int) < 0 := by
        simp only [stillCount, List.map_nil, List.sum_nil, Nat.cast_zero]
        omega
      simp only [List.nil_append, sliceCarsAux, sliceAux_neg B' _ hneg,
        if_neg (by omega : ¬(0 : Int) ≤ (stillCount ([] : List TrainCar) : Int) -
          (b.still_queued_embarked_pulls.length : Int))]
      rw [carsPulls_cons]
  | cons a A' ih =>
    intro B hB
    have harith : (stillCount (a :: A') : Int) -
        (a.still_queued_embarked_pulls.length : Int) = (stillCount A' : Int) := by
      rw [stillCount_cons]
      push_cast
      omega
    have hih := ih B hB
    simp only [List.cons_append, sliceCarsAux, List.append_eq, harith, hih,
      if_pos (Int.natCast_nonneg (stillCount A'))]

theorem map_set_eq {α β : Type} (f : α → β) :
    ∀ (l : List α) (i : Nat) (x : α), (∀ y, l[i]? = some y → f x = f y) →
      (l.set i x).map f = l.map f := by
  intro l
  induction l with
  | nil => intro i x _; simp
  | cons a rest ih =>
    intro i x hx
    match i with
    | 0 =>
      simp only [List.set_cons_zero, List.map_cons]
      rw [hx a (by simp)]
    | i' + 1 =>
      simp only [List.set_cons_succ, List.map_cons]
      rw [ih i' x (fun y hy => hx y (by simpa using hy))]

/-- Replacing the car at `idx` by one with the same embarked-pull lists
leaves both pull layouts untouched. -/
theorem set_car_maps (l : List TrainCar) (idx : Nat) (car c' : TrainCar)
    (hc : l[idx]? = some car)
    (h1 : c'.initial_embarked_pulls = car.initial_embarked_pulls)
    (h2 : c'.still_queued_embarked_pulls = car.still_queued_embarked_pulls) :
    (l.set idx c').map TrainCar.initial_embarked_pulls =
      l.map TrainCar.initial_embarked_pulls ∧
    (l.set idx c').map TrainCar.still_queued_embarked_pulls =
      l.map TrainCar.still_queued_embarked_pulls := by
  constructor
  · apply map_set_eq
    intro y hy
    rw [hc] at hy
    injection hy with hy
    subst hy
    exact h1
  · apply map_set_eq
    intro y hy
    rw [hc] at hy
    injection hy with hy
    subst hy
    exact h2

/-- A non-postponed start outcome only mutates the started car's
creation state / head branch / draft-PR number: the embarked-pull
layout, the waiting list and the base SHA are untouched. -/
theorem applyStart_not_postponed (rule : QueueRuleConfig) (o : StartOutcome)
    (s : TrainState) (idx : Nat) (hno : o ≠ .postponed) :
    (applyStartOutcome rule o s idx).1.cars.map TrainCar.initial_embarked_pulls =
      s.cars.map TrainCar.initial_embarked_pulls ∧
    (applyStartOutcome rule o s idx).1.cars.map TrainCar.still_queued_embarked_pulls =
      s.cars.map TrainCar.still_queued_embarked_pulls ∧
    (applyStartOutcome rule o s idx).1.cars.length = s.cars.length ∧
    (applyStartOutcome rule o s idx).1.waiting_pulls = s.waiting_pulls ∧
    (applyStartOutcome rule o s idx).1.current_base_sha = s.current_base_sha ∧
    (applyStartOutcome rule o s idx).2 = false := by
  rcases hget : s.cars[idx]? with - | car
  · simp [applyStartOutcome, hget]
  · rcases o with q | - | -
    · simp only [applyStartOutcome, hget]
      split
      · obtain ⟨m1, m2⟩ :=
          set_car_maps s.cars idx car (car.setState .updated) hget rfl rfl
        exact ⟨m1, m2, by simp, rfl, rfl, rfl⟩
      · obtain ⟨m1, m2⟩ :=
          set_car_maps s.cars idx car (car.startCreate.setQprn q) hget rfl rfl
        exact ⟨m1, m2, by simp, rfl, rfl, rfl⟩
    · exact absurd rfl hno
    · simp only [applyStartOutcome, hget]
      split
      · obtain ⟨m1, m2⟩ :=
          set_car_maps s.cars idx car (car.setState .failed) hget rfl rfl
        exact ⟨m1, m2, by simp, rfl, rfl, rfl⟩
      · obtain ⟨m1, m2⟩ :=
          set_car_maps s.cars idx car (car.startCreate.setState .failed) hget rfl rfl
        exact ⟨m1, m2, by simp, rfl, rfl, rfl⟩

theorem applyStart_len_le (rule : QueueRuleConfig) (o : StartOutcome)
    (s : TrainState) (idx : Nat) :
    (applyStartOutcome rule o s idx).1.cars.length ≤ s.cars.length := by
  rcases hget : s.cars[idx]? with - | car
  · simp [applyStartOutcome, hget]
  · rcases o with q | - | -
    · simp only [applyStartOutcome, hget]
      split <;> simp
    · simp only [applyStartOutcome, hget]
      simp [List.length_dropLast]
    · simp only [applyStartOutcome, hget]
      split <;> simp

theorem splitLoop_len (rule : QueueRuleConfig) (oracle : Nat → StartOutcome)
    (car : TrainCar) (now : Int) :
    ∀ (groups : List (List EmbarkedPull)) (pos : Nat) (parents : List EmbarkedPull)
      (ctr : Nat) (s : TrainState),
      (splitLoop rule oracle car now groups pos parents ctr s).1.cars.length ≤
        s.cars.length + groups.length := by
  intro groups
  induction groups with
  | nil => intro pos parents ctr s; simp [splitLoop]
  | cons g rest ih =>
    intro pos parents ctr s
    unfold splitLoop
    split
    · refine le_trans (ih _ _ _ _) ?_
      have hstart := applyStart_len_le rule (oracle ctr)
        ⟨s.cars ++ [TrainCar.new g g
          (car.parent_pull_request_numbers ++
            parents.map EmbarkedPull.user_pull_request_number)
          car.initial_current_base_sha now (car.failure_history ++ [car])],
         s.waiting_pulls, s.current_base_sha⟩
        ((s.cars ++ [TrainCar.new g g
          (car.parent_pull_request_numbers ++
            parents.map EmbarkedPull.user_pull_request_number)
          car.initial_current_base_sha now (car.failure_history ++ [car])]).length - 1)
      simp only [List.length_append, List.length_cons, List.length_nil] at hstart ⊢
      omega
    · refine le_trans (ih _ _ _ _) ?_
      simp only [List.length_append, List.length_cons, List.length_nil]
      omega

/-- With no postponement, the split loop lays down exactly one car per
group, in order, with the group as its `initial_embarked_pulls`, leaving
the waiting list and base SHA alone and accumulating the groups into
`parents`. -/
theorem splitLoop_spec (rule : QueueRuleConfig) (oracle : Nat → StartOutcome)
    (car : TrainCar) (now : Int) (hnop : ∀ k, oracle k ≠ .postponed) :
    ∀ (groups : List (List EmbarkedPull)) (pos : Nat) (parents : List EmbarkedPull)
      (ctr : Nat) (s : TrainState),
      (splitLoop rule oracle car now groups pos parents ctr s).1.cars.map
          TrainCar.initial_embarked_pulls =
        s.cars.map TrainCar.initial_embarked_pulls ++ groups ∧
      (splitLoop rule oracle car now groups pos parents ctr s).1.cars.map
          TrainCar.still_queued_embarked_pulls =
        s.cars.map TrainCar.still_queued_embarked_pulls ++ groups ∧
      (splitLoop rule oracle car now groups pos parents ctr s).1.waiting_pulls =
        s.waiting_pulls ∧
      (splitLoop rule oracle car now groups pos parents ctr s).1.current_base_sha =
        s.current_base_sha ∧
      (splitLoop rule oracle car now groups pos parents ctr s).2.1 =
        parents ++ groups.flatten := by
  intro groups
  induction groups with
  | nil =>
    intro pos parents ctr s
    refine ⟨by simp [splitLoop], by simp [splitLoop], by simp [splitLoop],
      by simp [splitLoop], by simp [splitLoop]⟩
  | cons g rest ih =>
    intro pos parents ctr s
    unfold splitLoop
    split
    · set newCar := TrainCar.new g g
        (car.parent_pull_request_numbers ++
          parents.map EmbarkedPull.user_pull_request_number)
        car.initial_current_base_sha now (car.failure_history ++ [car]) with hnewCar
      set s1 : TrainState :=
        ⟨s.cars ++ [newCar], s.waiting_pulls, s.current_base_sha⟩ with hs1
      obtain ⟨ha1, ha2, ha3, ha4, ha5, -⟩ := applyStart_not_postponed rule (oracle ctr)
        s1 (s1.cars.length - 1) (hnop ctr)
      clear ha3
      obtain ⟨hi1, hi2, hi3, hi4, hi5⟩ := ih (pos + 1) (parents ++ g) (ctr + 1)
        (applyStartOutcome rule (oracle ctr) s1 (s1.cars.length - 1)).1
      refine ⟨?_, ?_, ?_, ?_, ?_⟩
      · rw [hi1, ha1, hs1]
        simp [hnewCar, TrainCar.new, TrainCar.initial_embarked_pulls, TrainCar.data]
      · rw [hi2, ha2, hs1]
        simp [hnewCar, TrainCar.new, TrainCar.still_queued_embarked_pulls, TrainCar.data]
      · rw [hi3, ha4]
      · rw [hi4, ha5]
      · rw [hi5]
        simp
    · set newCar := TrainCar.new g g
        (car.parent_pull_request_numbers ++
          parents.map EmbarkedPull.user_pull_request_number)
        car.initial_current_base_sha now (car.failure_history ++ [car]) with hnewCar
      obtain ⟨hi1, hi2, hi3, hi4, hi5⟩ := ih (pos + 1) (parents ++ g) ctr
        ⟨s.cars ++ [newCar], s.waiting_pulls, s.current_base_sha⟩
      refine ⟨?_, ?_, hi3, hi4, ?_⟩
      · rw [hi1]
        simp [hnewCar, TrainCar.new, TrainCar.initial_embarked_pulls, TrainCar.data]
      · rw [hi2]
        simp [hnewCar, TrainCar.new, TrainCar.still_queued_embarked_pulls, TrainCar.data]
      · rw [hi5]
        simp

theorem split_list_flatten :
    ∀ (l : List EmbarkedPull) (parts : Nat), 1 ≤ parts →
      (split_list l parts).flatten = l := by
  intro l parts
  induction l, parts using split_list.induct with
  | case1 parts =>
    intro _
    unfold split_list
    rfl
  | case2 x xs =>
    intro h
    omega
  | case3 x xs parts' ih =>
    intro _
    unfold split_list
    simp only [List.flatten_cons, List.length_cons] at ih ⊢
    match parts', ih with
    | 0, _ =>
      have hsz : ((xs.length + 1 + 0) / (0 + 1)) = xs.length + 1 := by simp
      rw [hsz]
      have hdrop : (x :: xs).drop (xs.length + 1) = [] := by
        apply List.drop_eq_nil_of_le
        simp
      have htake : (x :: xs).take (xs.length + 1) = x :: xs := by
        apply List.take_of_length_le
        simp
      rw [hdrop, htake]
      unfold split_list
      simp
    | q + 1, ih =>
      rw [ih (by omega)]
      exact List.take_append_drop _ _

theorem split_list_length_le :
    ∀ (l : List EmbarkedPull) (parts : Nat), (split_list l parts).length ≤ parts := by
  intro l parts
  induction l, parts using split_list.induct with
  | case1 parts => unfold split_list; simp
  | case2 x xs => unfold split_list; simp
  | case3 x xs parts' ih =>
    unfold split_list
    simp only [List.length_cons] at ih ⊢
    omega

theorem split_list_ne_nil :
    ∀ (l : List EmbarkedPull) (parts : Nat), ∀ g ∈ split_list l parts, g ≠ [] := by
  intro l parts
  induction l, parts using split_list.induct with
  | case1 parts => unfold split_list; simp
  | case2 x xs => unfold split_list; simp
  | case3 x xs parts' ih =>
    unfold split_list
    intro g hg
    simp only [List.length_cons] at hg
    rcases List.mem_cons.1 hg with h | h
    · subst h
      have h1 : 1 ≤ (xs.length + 1 + parts') / (parts' + 1) :=
        (Nat.one_le_div_iff (by omega)).2 (by omega)
      intro hcon
      have hlen := congrArg List.length hcon
      simp only [List.length_take, List.length_cons, List.length_nil] at hlen
      omega
    · exact ih g h

/-- The splitter walk finds the first failed multi-PR car whose previous
cars all succeeded, together with the queue position just after it. -/
theorem findSplitAux_exact :
    ∀ (pre : List TrainCar), (∀ c ∈ pre, c.checks_conclusion = .success) →
    ∀ (failedCar : TrainCar) (post : List TrainCar) (pos : Nat),
      failedCar.checks_conclusion = .failure →
      1 < failedCar.initial_embarked_pulls.length →
      findSplitAux (pre ++ failedCar :: post) pos true =
        some (pos + stillCount pre + failedCar.still_queued_embarked_pulls.length,
          failedCar) := by
  intro pre
  induction pre with
  | nil =>
    intro _ failedCar post pos hfail hmulti
    simp only [List.nil_append, findSplitAux]
    rw [if_pos ⟨hfail, by trivial, hmulti⟩]
    simp [stillCount]
  | cons c pre' ih =>
    intro hpre failedCar post pos hfail hmulti
    have hcs := hpre c (by simp)
    have hpre' : ∀ x ∈ pre', x.checks_conclusion = .success :=
      fun x hx => hpre x (by simp [hx])
    have hb : (true && decide (c.checks_conclusion = Conclusion.success)) = true := by
      rw [hcs]
      simp
    have hrec := ih hpre' failedCar post
      (pos + c.still_queued_embarked_pulls.length) hfail hmulti
    simp only [List.cons_append, findSplitAux, List.append_eq]
    rw [if_neg (by rintro ⟨h, -⟩; rw [hcs] at h; exact Conclusion.noConfusion h)]
    rw [hb, hrec]
    congr 2
    rw [stillCount_cons]
    omega

theorem secondaryPass_spec (rules : String → Option QueueRuleConfig)
    (oracle : Nat → StartOutcome) (ctr : Nat) (s : TrainState)
    (hnop : ∀ k, oracle k ≠ .postponed)
    (hheads : ∀ c, s.cars.head? = some c → c.still_queued_embarked_pulls ≠ []) :
    ∃ t, secondaryPass rules oracle ctr s = some t ∧
      t.cars.map TrainCar.initial_embarked_pulls =
        s.cars.map TrainCar.initial_embarked_pulls ∧
      t.cars.map TrainCar.still_queued_embarked_pulls =
        s.cars.map TrainCar.still_queued_embarked_pulls ∧
      t.waiting_pulls = s.waiting_pulls ∧
      t.current_base_sha = s.current_base_sha := by
  rcases hc : s.cars with - | ⟨c, rest⟩
  · refine ⟨s, ?_, by rw [hc], by rw [hc], rfl, rfl⟩
    unfold secondaryPass
    simp only [hc]
  · by_cases hcond : (0 < c.failure_history.length ∧
        c.creation_state = TrainCarState.pending)
    · have hstill : c.still_queued_embarked_pulls ≠ [] := hheads c (by rw [hc]; rfl)
      obtain ⟨headEp, hhd⟩ : ∃ e, c.still_queued_embarked_pulls.head? = some e := by
        match he : c.still_queued_embarked_pulls with
        | [] => exact absurd he hstill
        | e :: _ => exact ⟨e, rfl⟩
      rcases hr : rules headEp.config.name with - | rule
      · refine ⟨s, ?_, by rw [hc], by rw [hc], rfl, rfl⟩
        unfold secondaryPass
        simp only [hc]
        rw [if_pos hcond]
        simp only [hhd, hr]
      · obtain ⟨ha1, ha2, -, ha4, ha5, -⟩ :=
          applyStart_not_postponed rule (oracle ctr) s 0 (hnop ctr)
        refine ⟨(applyStartOutcome rule (oracle ctr) s 0).1, ?_,
          by rw [hc] at ha1; exact ha1, by rw [hc] at ha2; exact ha2, ha4, ha5⟩
        unfold secondaryPass
        simp only [hc]
        rw [if_pos hcond]
        simp only [hhd, hr]
    · refine ⟨s, ?_, by rw [hc], by rw [hc], rfl, rfl⟩
      unfold secondaryPass
      simp only [hc]
      rw [if_neg hcond]

theorem secondaryPass_len (rules : String → Option QueueRuleConfig)
    (oracle : Nat → StartOutcome) (ctr : Nat) (s t : TrainState)
    (h : secondaryPass rules oracle ctr s = some t) :
    t.cars.length ≤ s.cars.length := by
  unfold secondaryPass at h
  split at h
  · injection h with h
    subst h
    exact le_refl _
  · split at h
    · split at h
      · exact absurd h (by simp)
      · split at h
        · injection h with h
          subst h
          exact le_refl _
        · injection h with h
          subst h
          exact applyStart_len_le _ _ _ _
    · injection h with h
      subst h
      exact le_refl _

theorem splitFailedBatches_eq_main (rules : String → Option QueueRuleConfig)
    (oracle : Nat → StartOutcome) (now : Int) (s : TrainState)
    (h : ∀ c, s.cars = [c] →
      ¬(c.checks_conclusion = .failure ∧ c.initial_embarked_pulls.length = 1)) :
    splitFailedBatches rules oracle now s =
      splitFailedBatchesMain rules oracle now s := by
  rcases hc : s.cars with - | ⟨c, rest⟩
  · simp only [splitFailedBatches, hc]
  · rcases rest with - | ⟨c2, rest2⟩
    · simp only [splitFailedBatches, hc]
      rw [if_neg (h c hc)]
    · simp only [splitFailedBatches, hc]

/-- **C2 (amended).** When `_split_failed_batches` splits the first
failed car (checks failed, all previous cars succeeded, more than one
initial embarked pull, every car still holding at least one pull, no
creation postponed): the failed car's `still_queued_embarked_pulls`
without its last element is partitioned into `max(2, speculative_checks)`
roughly-equal contiguous groups, one new car per non-empty group, a
residual car holding exactly the last still-queued pull is re-appended,
the cars after it roll back to the waiting list, and the resulting cars'
`initial_embarked_pulls` (beyond the kept prefix) re-concatenate to
exactly the failed car's `still_queued_embarked_pulls` — order and count
preserved. -/
theorem splitFailedBatches_split
    (rules : String → Option QueueRuleConfig) (oracle : Nat → StartOutcome)
    (now : Int) (s : TrainState) (pre : List TrainCar) (failedCar : TrainCar)
    (post : List TrainCar) (headEp : EmbarkedPull) (rule : QueueRuleConfig)
    (hcars : s.cars = pre ++ failedCar :: post)
    (hpre : ∀ c ∈ pre, c.checks_conclusion = .success)
    (hfail : failedCar.checks_conclusion = .failure)
    (hmulti : 1 < failedCar.initial_embarked_pulls.length)
    (hstillne : ∀ c ∈ s.cars, c.still_queued_embarked_pulls ≠ [])
    (hhead : failedCar.still_queued_embarked_pulls.head? = some headEp)
    (hrule : rules headEp.config.name = some rule)
    (hnop : ∀ k, oracle k ≠ .postponed) :
    ∃ t lastEp,
      splitFailedBatches rules oracle now s = some t ∧
      failedCar.still_queued_embarked_pulls.getLast? = some lastEp ∧
      t.cars.map TrainCar.initial_embarked_pulls =
        pre.map TrainCar.initial_embarked_pulls ++
          split_list failedCar.still_queued_embarked_pulls.dropLast
            (max 2 rule.speculative_checks) ++ [[lastEp]] ∧
      ((t.cars.map TrainCar.initial_embarked_pulls).drop pre.length).flatten =
        failedCar.still_queued_embarked_pulls ∧
      t.waiting_pulls = carsPulls post ++ s.waiting_pulls ∧
      t.current_base_sha = s.current_base_sha := by
  have hmemF : failedCar ∈ s.cars := by
    rw [hcars]
    exact List.mem_append_right _ (List.mem_cons_self _ _)
  have hFne : failedCar.still_queued_embarked_pulls ≠ [] := hstillne failedCar hmemF
  obtain ⟨lastEp, hlast⟩ : ∃ e, failedCar.still_queued_embarked_pulls.getLast? = some e :=
    Option.isSome_iff_exists.1 (List.getLast?_isSome.2 hFne)
  have hfind : findSplitAux s.cars 0 true =
      some (stillCount pre + failedCar.still_queued_embarked_pulls.length, failedCar) := by
    rw [hcars, findSplitAux_exact pre hpre failedCar post 0 hfail hmulti]
    simp
  have hpost : ∀ b ∈ post, b.still_queued_embarked_pulls ≠ [] := fun b hb =>
    hstillne b (by rw [hcars]; exact List.mem_append_right _ (List.mem_cons_of_mem _ hb))
  have haux : sliceCarsAux
      ((stillCount pre + failedCar.still_queued_embarked_pulls.length : Nat) : Int)
      s.cars = (pre ++ [failedCar], carsPulls post, post) := by
    have h1 : ((stillCount pre + failedCar.still_queued_embarked_pulls.length : Nat) : Int) =
        (stillCount (pre ++ [failedCar]) : Int) := by
      rw [stillCount_append]
      have h2 : stillCount [failedCar] = failedCar.still_queued_embarked_pulls.length := by
        simp [stillCount]
      rw [h2]
    rw [h1, hcars, show pre ++ failedCar :: post = (pre ++ [failedCar]) ++ post by simp]
    exact sliceAux_exact (pre ++ [failedCar]) post hpost
  have hslice : sliceCars s
      ((stillCount pre + failedCar.still_queued_embarked_pulls.length : Nat) : Int) =
      (⟨pre ++ [failedCar], carsPulls post ++ s.waiting_pulls, s.current_base_sha⟩, post) := by
    simp only [sliceCars, haux]
  obtain ⟨hl1, hl2, hl3, hl4, hl5⟩ := splitLoop_spec rule oracle failedCar now hnop
    (split_list failedCar.still_queued_embarked_pulls.dropLast
      (max 2 rule.speculative_checks)) 0 [] 0
    ⟨pre, carsPulls post ++ s.waiting_pulls, s.current_base_sha⟩
  have hheads3 : ∀ c,
      (TrainState.cars ⟨(splitLoop rule oracle failedCar now
          (split_list failedCar.still_queued_embarked_pulls.dropLast
            (max 2 rule.speculative_checks)) 0 [] 0
          ⟨pre, carsPulls post ++ s.waiting_pulls, s.current_base_sha⟩).1.cars ++
        [TrainCar.mk { failedCar.data with
            parent_pull_request_numbers := failedCar.parent_pull_request_numbers ++
              (splitLoop rule oracle failedCar now
                (split_list failedCar.still_queued_embarked_pulls.dropLast
                  (max 2 rule.speculative_checks)) 0 [] 0
                ⟨pre, carsPulls post ++ s.waiting_pulls, s.current_base_sha⟩).2.1.map
                EmbarkedPull.user_pull_request_number
            still_queued_embarked_pulls := [lastEp]
            initial_embarked_pulls := [lastEp] } failedCar.failure_history],
        (splitLoop rule oracle failedCar now
          (split_list failedCar.still_queued_embarked_pulls.dropLast
            (max 2 rule.speculative_checks)) 0 [] 0
          ⟨pre, carsPulls post ++ s.waiting_pulls, s.current_base_sha⟩).1.waiting_pulls,
        (splitLoop rule oracle failedCar now
          (split_list failedCar.still_queued_embarked_pulls.dropLast
            (max 2 rule.speculative_checks)) 0 [] 0
          ⟨pre, carsPulls post ++ s.waiting_pulls, s.current_base_sha⟩).1.current_base_sha⟩).head? =
        some c → c.still_queued_embarked_pulls ≠ [] := by
    intro c hc
    rcases hcr : (splitLoop rule oracle failedCar now
        (split_list failedCar.still_queued_embarked_pulls.dropLast
          (max 2 rule.speculative_checks)) 0 [] 0
        ⟨pre, carsPulls post ++ s.waiting_pulls, s.current_base_sha⟩).1.cars
      with - | ⟨c0, rest0⟩
    · simp only [hcr, List.nil_append, List.head?_cons] at hc
      injection hc with hc
      subst hc
      simp [TrainCar.still_queued_embarked_pulls, TrainCar.data]
    · simp only [hcr, List.cons_append, List.head?_cons] at hc
      injection hc with hc
      subst hc
      rw [hcr] at hl2
      have hhd2 := congrArg List.head? hl2
      simp only [List.map_cons, List.head?_cons] at hhd2
      have hmem : c0.still_queued_embarked_pulls ∈
          (pre.map TrainCar.still_queued_embarked_pulls ++
            split_list failedCar.still_queued_embarked_pulls.dropLast
              (max 2 rule.speculative_checks)) := by
        exact List.mem_of_mem_head? (by rw [← hhd2]; rfl)
      rcases List.mem_append.1 hmem with hm | hm
      · obtain ⟨pc, hpc, hpc2⟩ := List.mem_map.1 hm
        rw [← hpc2]
        exact hstillne pc (by rw [hcars]; exact List.mem_append_left _ hpc)
      · exact split_list_ne_nil _ _ _ hm
  obtain ⟨t, ht, ht1, ht2, ht3, ht4⟩ := secondaryPass_spec rules oracle
    (splitLoop rule oracle failedCar now
      (split_list failedCar.still_queued_embarked_pulls.dropLast
        (max 2 rule.speculative_checks)) 0 [] 0
      ⟨pre, carsPulls post ++ s.waiting_pulls, s.current_base_sha⟩).2.2
    ⟨(splitLoop rule oracle failedCar now
        (split_list failedCar.still_queued_embarked_pulls.dropLast
          (max 2 rule.speculative_checks)) 0 [] 0
        ⟨pre, carsPulls post ++ s.waiting_pulls, s.current_base_sha⟩).1.cars ++
      [TrainCar.mk { failedCar.data with
          parent_pull_request_numbers := failedCar.parent_pull_request_numbers ++
            (splitLoop rule oracle failedCar now
              (split_list failedCar.still_queued_embarked_pulls.dropLast
                (max 2 rule.speculative_checks)) 0 [] 0
              ⟨pre, carsPulls post ++ s.waiting_pulls, s.current_base_sha⟩).2.1.map
              EmbarkedPull.user_pull_request_number
          still_queued_embarked_pulls := [lastEp]
          initial_embarked_pulls := [lastEp] } failedCar.failure_history],
      (splitLoop rule oracle failedCar now
        (split_list failedCar.still_queued_embarked_pulls.dropLast
          (max 2 rule.speculative_checks)) 0 [] 0
        ⟨pre, carsPulls post ++ s.waiting_pulls, s.current_base_sha⟩).1.waiting_pulls,
      (splitLoop rule oracle failedCar now
        (split_list failedCar.still_queued_embarked_pulls.dropLast
          (max 2 rule.speculative_checks)) 0 [] 0
        ⟨pre, carsPulls post ++ s.waiting_pulls, s.current_base_sha⟩).1.current_base_sha⟩
    hnop hheads3
  have hshort : ∀ c, s.cars = [c] →
      ¬(c.checks_conclusion = .failure ∧ c.initial_embarked_pulls.length = 1) := by
    intro c hc hcon
    rw [hcars] at hc
    rcases pre with - | ⟨p, pre'⟩
    · simp only [List.nil_append] at hc
      injection hc with hc1 hc2
      subst hc1
      omega
    · simp only [List.cons_append] at hc
      injection hc with hig1 hig2
      exact absurd hig2 (by simp)
  have hmapinit : t.cars.map TrainCar.initial_embarked_pulls =
      pre.map TrainCar.initial_embarked_pulls ++
        split_list failedCar.still_queued_embarked_pulls.dropLast
          (max 2 rule.speculative_checks) ++ [[lastEp]] := by
    rw [ht1]
    simp only [List.map_append, hl1, List.map_cons, List.map_nil]
    simp [TrainCar.initial_embarked_pulls, TrainCar.data, List.append_assoc]
  refine ⟨t, lastEp, ?_, hlast, hmapinit, ?_, ?_, ?_⟩
  · rw [splitFailedBatches_eq_main rules oracle now s hshort]
    unfold splitFailedBatchesMain
    simp only [hfind, hhead, hrule, hlast, hslice, List.dropLast_concat]
    exact ht
  · rw [hmapinit]
    have hdrop : ((pre.map TrainCar.initial_embarked_pulls ++
        split_list failedCar.still_queued_embarked_pulls.dropLast
          (max 2 rule.speculative_checks)) ++ [[lastEp]]).drop pre.length =
        split_list failedCar.still_queued_embarked_pulls.dropLast
          (max 2 rule.speculative_checks) ++ [[lastEp]] := by
      rw [List.append_assoc]
      have : pre.length = (pre.map TrainCar.initial_embarked_pulls).length := by simp
      rw [this, List.drop_left]
    rw [hdrop, List.flatten_append,
      split_list_flatten _ _ (by omega), List.flatten_cons]
    simp only [List.flatten_nil, List.append_nil]
    have hgl : failedCar.still_queued_embarked_pulls.getLast hFne = lastEp := by
      have := List.getLast?_eq_getLast failedCar.still_queued_embarked_pulls hFne
      rw [this] at hlast
      injection hlast
    rw [← hgl]
    exact List.dropLast_append_getLast hFne
  · rw [ht3]
    exact hl3
  · rw [ht4]
    exact hl4

theorem populateLoop_len (rule : QueueRuleConfig) (qname : String) (now : Int)
    (baseSha : String) (oracle : Nat → StartOutcome) :
    ∀ (fuel ctr : Nat) (s t : TrainState),
      populateLoop rule qname now baseSha oracle fuel ctr s = some t →
      t.cars.length ≤ s.cars.length + fuel := by
  intro fuel
  induction fuel with
  | zero =>
    intro ctr s t h
    injection h with h
    subst h
    simp
  | succ fuel ih =>
    intro ctr s t h
    unfold populateLoop at h
    split at h
    · exact absurd h (by simp)
    · split at h
      · injection h with h
        subst h
        omega
      · split at h
        · injection h with h
          subst h
          omega
        · split at h
          · simp only [] at h
            injection h with h
            subst h
            refine le_trans (applyStart_len_le _ _ _ _) ?_
            simp only [List.length_append, List.length_cons, List.length_nil]
            omega
          · simp only [] at h
            injection h with h
            subst h
            refine le_trans (applyStart_len_le _ _ _ _) ?_
            simp only [List.length_append, List.length_cons, List.length_nil]
            omega
          · rename_i q heq
            simp only [] at h
            refine le_trans (ih _ _ _ h) ?_
            refine le_trans (Nat.add_le_add_right
              (applyStart_len_le rule (StartOutcome.ok q) _ _) fuel) ?_
            simp only [List.length_append, List.length_cons, List.length_nil]
            omega

theorem populateCarsBody_bound (rules : String → Option QueueRuleConfig) (now : Int)
    (fetchedBase : String) (oracle : Nat → StartOutcome) (s t : TrainState)
    (h : populateCarsBody rules now fetchedBase oracle s = some t) :
    t.cars.length ≤ max (match s.embarkedPulls.head? with
      | some hp => (rules hp.config.name).elim 0 (fun r => r.speculative_checks)
      | none => 0) s.cars.length := by
  unfold populateCarsBody at h
  split at h
  · injection h with h
    subst h
    exact le_max_right _ _
  · rename_i headPull heq
    simp only [heq]
    simp only [] at h
    generalize hb : (if s.current_base_sha.isNone || s.cars.isEmpty then fetchedBase
      else s.current_base_sha.getD fetchedBase) = base0 at h
    split at h
    · injection h with h
      subst h
      exact le_max_right _ _
    · rename_i rule hr
      simp only [hr, Option.elim]
      split at h
      · injection h with h
        subst h
        refine le_trans ?_ (le_max_right _ _)
        obtain ⟨h1, -⟩ := sliceAux_spec s.cars
          ((stillCount (s.cars.take rule.speculative_checks) : Nat) : Int)
          (Int.natCast_nonneg _)
        show (sliceCarsAux
          ((stillCount (s.cars.take rule.speculative_checks) : Nat) : Int)
          s.cars).1.length ≤ s.cars.length
        have hlen := congrArg List.length h1
        rw [List.length_take] at hlen
        omega
      · split at h
        · rename_i hcond
          have hloop := populateLoop_len rule headPull.config.name now base0 oracle
            (((rule.speculative_checks : Int) - (s.cars.length : Int)).toNat) 0
            ⟨s.cars, s.waiting_pulls, some base0⟩ t h
          refine le_trans hloop (le_trans ?_ (le_max_left _ _))
          obtain ⟨hc1, -⟩ := hcond
          simp only at hc1 ⊢
          omega
        · injection h with h
          subst h
          exact le_max_right _ _

/-- Bound on the car count established by `_populate_cars`: it never
exceeds the head queue rule's `speculative_checks`, except that an early
return (failed last car, vanished rule, empty train) keeps whatever was
already there. -/
theorem populateCars_bound (rules : String → Option QueueRuleConfig) (now : Int)
    (fetchedBase : String) (oracle : Nat → StartOutcome) (s t : TrainState)
    (h : populateCars rules now fetchedBase oracle s = some t) :
    t.cars.length ≤ max (match s.embarkedPulls.head? with
      | some hp => (rules hp.config.name).elim 0 (fun r => r.speculative_checks)
      | none => 0) s.cars.length := by
  unfold populateCars at h
  split at h
  · split at h
    · injection h with h
      subst h
      exact le_max_right _ _
    · exact populateCarsBody_bound rules now fetchedBase oracle s t h
  · exact populateCarsBody_bound rules now fetchedBase oracle s t h

/-- Car-count bound for the main split pass: at most
`max 2 speculative_checks` new cars plus the residual car are appended
to (a prefix of) the previous cars, so the count grows by at most
`max 2 B + 1` when every rule's `speculative_checks` is at most `B`. -/
theorem splitFailedBatchesMain_len (rules : String → Option QueueRuleConfig)
    (oracle : Nat → StartOutcome) (now : Int) (B : Nat) (s t : TrainState)
    (hB : ∀ q r, rules q = some r → r.speculative_checks ≤ B)
    (h : splitFailedBatchesMain rules oracle now s = some t) :
    t.cars.length ≤ s.cars.length + (max 2 B + 1) := by
  unfold splitFailedBatchesMain at h
  split at h
  · exact le_trans (secondaryPass_len _ _ _ _ _ h) (by omega)
  · rename_i pos car hfind
    split at h
    · exact absurd h (by simp)
    · rename_i headEp hhead
      split at h
      · injection h with h
        subst h
        omega
      · rename_i rule hr
        split at h
        · exact absurd h (by simp)
        · rename_i lastEp hlast
          simp only [] at h
          rcases hs1 : sliceCars s (pos : Int) with ⟨s1, deleted⟩
          simp only [hs1] at h
          have hsec := secondaryPass_len _ _ _ _ _ h
          simp only [List.length_append, List.length_cons, List.length_nil] at hsec
          have hloop := splitLoop_len rule oracle car now
            (split_list car.still_queued_embarked_pulls.dropLast
              (max 2 rule.speculative_checks)) 0 [] 0
            ⟨s1.cars.dropLast, s1.waiting_pulls, s1.current_base_sha⟩
          have hgl := split_list_length_le car.still_queued_embarked_pulls.dropLast
            (max 2 rule.speculative_checks)
          have hc : s1.cars = (sliceCarsAux (pos : Int) s.cars).1 := by
            have h2 := congrArg (fun p => TrainState.cars p.1) hs1
            simp only [sliceCars] at h2
            exact h2.symm
          obtain ⟨h1, -⟩ := sliceAux_spec s.cars (pos : Int) (Int.natCast_nonneg _)
          have hlen := congrArg List.length h1
          rw [List.length_take] at hlen
          have hBr := hB _ _ hr
          have hs1len : s1.cars.length ≤ s.cars.length := by
            rw [hc]
            omega
          simp only [List.length_dropLast] at hloop
          omega

/-- Car-count bound for `_split_failed_batches` as a whole. -/
theorem splitFailedBatches_len (rules : String → Option QueueRuleConfig)
    (oracle : Nat → StartOutcome) (now : Int) (B : Nat) (s t : TrainState)
    (hB : ∀ q r, rules q = some r → r.speculative_checks ≤ B)
    (h : splitFailedBatches rules oracle now s = some t) :
    t.cars.length ≤ s.cars.length + (max 2 B + 1) := by
  unfold splitFailedBatches at h
  split at h
  · split at h
    · injection h with h
      subst h
      omega
    · exact splitFailedBatchesMain_len rules oracle now B s t hB h
  · exact splitFailedBatchesMain_len rules oracle now B s t hB h


/-- **C1 (counterexample).** P3 as stated is false: splitting a failed
5-PR car under a rule with `speculative_checks = 1` leaves the train
with 3 cars (two partition groups plus the residual car), exceeding the
head rule's `speculative_checks`.  The repository's own unit test
(`test_train_queue_splitted_on_failure_1x5`) asserts exactly these 3
cars. -/
theorem P3_bound_cex :
    (splitFailedBatches (constRules rule1x5) okOracle 0
        ⟨[(sampleCar [41, 42, 43, 44, 45]).setConclusion .failure], [], some "base"⟩).map
      (fun t => t.cars.length) = some 3 ∧
    rule1x5.speculative_checks = 1 := ⟨rfl, rfl⟩

/-- **C1 (amended).** The bounds that actually hold: (i) after
`_populate_cars` the car count never exceeds the larger of the head
queue rule's `speculative_checks` and the prior car count; (ii)
`_split_failed_batches` grows the car count by at most
`max 2 B + 1` — the at most `max(2, speculative_checks)` partition
groups plus the re-appended residual car — whenever every rule's
`speculative_checks` is at most `B`. -/
theorem P3_bound :
    (∀ (rules : String → Option QueueRuleConfig) (now : Int) (fetchedBase : String)
        (oracle : Nat → StartOutcome) (s t : TrainState),
      populateCars rules now fetchedBase oracle s = some t →
      t.cars.length ≤ max (match s.embarkedPulls.head? with
        | some hp => (rules hp.config.name).elim 0 (fun r => r.speculative_checks)
        | none => 0) s.cars.length) ∧
    (∀ (rules : String → Option QueueRuleConfig) (oracle : Nat → StartOutcome)
        (now : Int) (B : Nat) (s t : TrainState),
      (∀ q r, rules q = some r → r.speculative_checks ≤ B) →
      splitFailedBatches rules oracle now s = some t →
      t.cars.length ≤ s.cars.length + (max 2 B + 1)) :=
  ⟨populateCars_bound, splitFailedBatches_len⟩

/-- **C1 witness.** The amended split bound applied to the concrete
1x5 split: the three resulting cars are within `1 + (max 2 1 + 1)`. -/
theorem P3_bound_witness :
    ((splitFailedBatches (constRules rule1x5) okOracle 0
        ⟨[(sampleCar [41, 42, 43, 44, 45]).setConclusion .failure], [], some "base"⟩).getD
      ⟨[], [], none⟩).cars.length ≤ 1 + (max 2 1 + 1) :=
  P3_bound.2 (constRules rule1x5) okOracle 0 1
    ⟨[(sampleCar [41, 42, 43, 44, 45]).setConclusion .failure], [], some "base"⟩
    ((splitFailedBatches (constRules rule1x5) okOracle 0
        ⟨[(sampleCar [41, 42, 43, 44, 45]).setConclusion .failure], [], some "base"⟩).getD
      ⟨[], [], none⟩)
    (fun q r hqr => by injection hqr with h; rw [← h]; decide) rfl

/-- **C2 (counterexample).** The claim partitions
`initial_embarked_pulls[:-1]` and asserts the sum of
`|initial_embarked_pulls|` is preserved; the code partitions
`still_queued_embarked_pulls[:-1]`.  A failed car whose head pull
already left the queue (`initial = [1, 2]`, `still = [2]`) splits into
a single residual car carrying 1 initial pull, not 2. -/
theorem split_preserves_cex :
    (splitFailedBatches (constRules rule1x5) okOracle 0
        ⟨[partialCar], [], some "b"⟩).map
      (fun t => (t.cars.map (fun c => c.initial_embarked_pulls.length)).sum) = some 1 ∧
    partialCar.initial_embarked_pulls.length = 2 := ⟨rfl, rfl⟩

/-- **C2 witness.** The amended split theorem applied to a concrete
train: one failed car holding pulls 11, 12, 13 splits under the 1x5
rule into groups `[[11], [12]]` plus the residual car `[13]`. -/
theorem splitFailedBatches_split_witness :
    ∃ t lastEp,
      splitFailedBatches (constRules rule1x5) okOracle 0
          ⟨[(sampleCar [11, 12, 13]).setConclusion .failure], [], some "b"⟩ = some t ∧
      ((sampleCar [11, 12, 13]).setConclusion .failure).still_queued_embarked_pulls.getLast? =
        some lastEp ∧
      t.cars.map TrainCar.initial_embarked_pulls =
        ([] : List TrainCar).map TrainCar.initial_embarked_pulls ++
          split_list ((sampleCar [11, 12, 13]).setConclusion
            .failure).still_queued_embarked_pulls.dropLast (max 2 rule1x5.speculative_checks) ++
          [[lastEp]] ∧
      ((t.cars.map TrainCar.initial_embarked_pulls).drop
          ([] : List TrainCar).length).flatten =
        ((sampleCar [11, 12, 13]).setConclusion .failure).still_queued_embarked_pulls ∧
      t.waiting_pulls = carsPulls [] ++
        ([] : List EmbarkedPull) ∧
      t.current_base_sha =
        (⟨[(sampleCar [11, 12, 13]).setConclusion .failure], [], some "b"⟩ :
          TrainState).current_base_sha :=
  splitFailedBatches_split (constRules rule1x5) okOracle 0
    ⟨[(sampleCar [11, 12, 13]).setConclusion .failure], [], some "b"⟩
    [] ((sampleCar [11, 12, 13]).setConclusion .failure) []
    (samplePull 11 "q") rule1x5
    rfl (by simp) rfl (by decide) (by decide) rfl rfl
    (fun k h => by simp [okOracle] at h)

/-- **C7 (code bug).** On a train whose head car is pending with a
non-empty failure history and whose *last* car holds PR 45, a postponed
start of the head car makes the secondary pass of
`_split_failed_batches` execute `del self._cars[-1]` — deleting the
*last* car instead of the postponed head — and re-queue the head car's
pulls: PR 45 is lost from the train and PRs 43, 44 are duplicated,
contradicting the claimed preservation of the PR set. -/
theorem postponed_start_loses_pull :
    splitFailedBatches (constRules sampleRule) postponeOracle 0
        ⟨[pendingSplitCar, (sampleCar [45]).setConclusion .failure], [], some "b"⟩ =
      some ⟨[pendingSplitCar], [samplePull 43 "q", samplePull 44 "q"], some "b"⟩ ∧
    (TrainState.pullNumbers ⟨[pendingSplitCar, (sampleCar [45]).setConclusion .failure],
        [], some "b"⟩).contains 45 = true ∧
    (TrainState.pullNumbers ⟨[pendingSplitCar], [samplePull 43 "q", samplePull 44 "q"],
        some "b"⟩).contains 45 = false ∧
    (TrainState.pullNumbers ⟨[pendingSplitCar], [samplePull 43 "q", samplePull 44 "q"],
        some "b"⟩).count 43 = 2 := ⟨rfl, rfl, rfl, rfl⟩

/-! ## Serialization round trip (C8) -/

/-- Mutual round trip, bounded by `sizeOf` to drive the induction:
deserializing a serialized car (or car list) restores it exactly. -/
theorem roundtrip_sized (now : Int) :
    ∀ N : Nat,
      (∀ c : TrainCar, sizeOf c ≤ N → deserializeCar now (serializeCar c) = some c) ∧
      (∀ l : List TrainCar, sizeOf l ≤ N → deserializeCars now (serializeCars l) = some l) := by
  intro N
  induction N with
  | zero =>
    constructor
    · intro c h
      rcases c with ⟨d, fh⟩
      simp only [TrainCar.mk.sizeOf_spec] at h
      omega
    · intro l h
      cases l with
      | nil => rfl
      | cons c rest =>
        simp only [List.cons.sizeOf_spec] at h
        omega
  | succ n ih =>
    constructor
    · intro c h
      rcases c with ⟨d, fh⟩
      simp only [TrainCar.mk.sizeOf_spec] at h
      have hfh := ih.2 fh (by omega)
      simp [serializeCar, deserializeCar, hfh]
    · intro l h
      cases l with
      | nil => rfl
      | cons c rest =>
        simp only [List.cons.sizeOf_spec] at h
        have hc := ih.1 c (by omega)
        have hrest := ih.2 rest (by omega)
        simp [serializeCars, deserializeCars, hc, hrest]

/-- Round trip at the train level, for trains the `save` guard actually
stores (a waiting pull or a car exists). -/
theorem trainRoundTrip (now : Int) (s : TrainState)
    (h : s.cars ≠ [] ∨ s.waiting_pulls ≠ []) :
    trainLoad now (trainSave s) = some s := by
  have hguard : (s.waiting_pulls.isEmpty && s.cars.isEmpty) = false := by
    rcases h with h | h <;> cases s <;>
      simp_all [List.isEmpty_iff, Bool.and_eq_false_iff]
  rw [trainSave, if_neg (by simp [hguard])]
  have hcars := (roundtrip_sized now (sizeOf s.cars)).2 s.cars (le_refl _)
  simp [trainLoad, hcars]

/-- **C8 (counterexample).** The round trip is *not* the identity for
every train state: an empty train whose `current_base_sha` is set is
saved with `hdel` (nothing stored), and loading nothing resets
`current_base_sha` to `None` — the SHA is lost. -/
theorem train_roundtrip_cex :
    trainLoad 0 (trainSave ⟨[], [], some "sha"⟩) = some ⟨[], [], none⟩ ∧
    (⟨[], [], some "sha"⟩ : TrainState).current_base_sha ≠
      (⟨[], [], none⟩ : TrainState).current_base_sha := ⟨rfl, by decide⟩

/-- **C8 (amended).** (i) For every train state holding at least one car
or waiting pull — the states `Train.save` actually stores —
`Train.load ∘ Train.save` restores the cars (every serialized field,
recursive `failure_history` included), the waiting pulls and
`current_base_sha` exactly.  (ii) An old-layout car document (single
embedded pull; `state` in place of `creation_state`; no `creation_date`,
`failure_history`, `last_checks`, `checks_conclusion`, `has_timed_out`,
`head_branch` keys) deserializes with `creation_date = now`, empty
failure history and checks, a pending conclusion, `has_timed_out =
false`, and `head_branch` recomputed as the hyphen-join of the embarked
PR numbers. -/
theorem serialization_roundtrip :
    (∀ (now : Int) (s : TrainState), s.cars ≠ [] ∨ s.waiting_pulls ≠ [] →
      trainLoad now (trainSave s) = some s) ∧
    (∀ (now : Int) (n : Nat) (cfg : PullQueueConfig) (qa : Int) (parents : List Nat)
        (sha : String) (cs : TrainCarState) (qprn : Option Nat),
      deserializeCar now (.mk
        { embarked := none
          user_pull_request_number := some n
          config := some cfg
          queued_at := some qa
          parent_pull_request_numbers := parents
          initial_current_base_sha := sha
          creation_date := none
          creation_state := none
          state := some cs
          checks_conclusion := none
          queue_pull_request_number := qprn
          head_branch := none
          last_checks := none
          last_evaluated_conditions := none
          has_timed_out := none } none) =
        some (.mk
          { initial_embarked_pulls := [EmbarkedPull.mk n cfg qa]
            still_queued_embarked_pulls := [EmbarkedPull.mk n cfg qa]
            parent_pull_request_numbers := parents
            initial_current_base_sha := sha
            creation_date := now
            creation_state := cs
            checks_conclusion := .pending
            queue_pull_request_number := qprn
            head_branch := some (pullsBranchRefOf [EmbarkedPull.mk n cfg qa])
            last_checks := []
            last_evaluated_conditions := none
            has_timed_out := false } [])) :=
  ⟨trainRoundTrip, fun _ _ _ _ _ _ _ _ => rfl⟩

/-- **C8 witness.** The round trip applied to a one-car train whose car
carries a non-empty recursive failure history. -/
theorem serialization_roundtrip_witness :
    trainLoad 7 (trainSave ⟨[pendingSplitCar], [], some "sha"⟩) =
      some ⟨[pendingSplitCar], [], some "sha"⟩ :=
  serialization_roundtrip.1 7 ⟨[pendingSplitCar], [], some "sha"⟩ (Or.inl (by simp))

/-! ## The HTTP retry policy (C9) -/

/-- A retryable error is a transport error, a 5xx response or a 429
response: the exception classes `connectivity_issue_retry` retries on,
pushed back through `raise_for_status` to status-code classes. -/
theorem retryable_classification (o : AttemptOutcome) (e : HttpError)
    (h : attemptResult o = some e) (hr : shouldRetry e = true) :
    o = .transport ∨
      ∃ st ra, o = .response st ra ∧ ((500 ≤ st ∧ st ≤ 599) ∨ st = 429) := by
  cases o with
  | transport => exact Or.inl rfl
  | response st ra =>
    right
    refine ⟨st, ra, rfl, ?_⟩
    simp only [attemptResult] at h
    rcases hrs : raise_for_status st with - | cls
    · rw [hrs] at h
      exact absurd h (by simp)
    · rw [hrs] at h
      injection h with h
      rw [← h] at hr
      simp only [shouldRetry, Bool.or_eq_true, beq_iff_eq] at hr
      unfold raise_for_status is_client_error is_server_error STATUS_CODE_TO_EXC at hrs
      split_ifs at hrs <;>
        first
          | exact Option.noConfusion hrs
          | (injection hrs with hrs
             rw [← hrs] at hr
             first
               | exact absurd hr (by decide)
               | omega)

/-- `wait_retry_after_header` never returns a negative wait. -/
theorem wait_retry_after_header_nonneg (now : Int) (o : Option HttpError) :
    0 ≤ wait_retry_after_header now o := by
  rcases o with - | e
  · simp [wait_retry_after_header]
  · rcases e with - | ⟨cls, st, ra⟩
    · simp [wait_retry_after_header]
    · rcases ra <;> simp [wait_retry_after_header]

/-- Full characterisation of the retry loop: the attempt number only
grows within the fuel budget, the final result is the last attempt's
result (re-raised unchanged), every earlier attempt failed with a
retryable error, the loop ends by success, fuel exhaustion or a
non-retryable error, and the accumulated waits are
`retry-after + 0.2·2^j` for each failed attempt `j`. -/
theorem retryGo_spec (now : Int) (attempts : Nat → AttemptOutcome) :
    ∀ (fuel k : Nat) (waits : List ℚ) (r : Nat × Option HttpError × List ℚ),
      1 ≤ fuel → retryGo now attempts fuel k waits = r →
      k ≤ r.1 ∧ r.1 ≤ k + fuel - 1 ∧
      r.2.1 = attemptResult (attempts r.1) ∧
      (∀ j, k ≤ j → j < r.1 →
        ∃ e, attemptResult (attempts j) = some e ∧ shouldRetry e = true) ∧
      (r.2.1 = none ∨ r.1 = k + fuel - 1 ∨
        ∃ e, r.2.1 = some e ∧ shouldRetry e = false) ∧
      r.2.2 = waits ++ (List.range (r.1 - k)).map (fun i =>
        wait_retry_after_header now (attemptResult (attempts (k + i))) +
          wait_exponential (2 / 10) (k + i)) := by
  intro fuel
  induction fuel with
  | zero => intro k waits r h; exact absurd h (by omega)
  | succ fuel ih =>
    intro k waits r _ hr
    simp only [retryGo] at hr
    rcases hA : attemptResult (attempts k) with - | e
    · simp only [hA] at hr
      subst hr
      refine ⟨le_refl _, by omega, hA.symm, ?_, Or.inl rfl, by simp⟩
      intro j h1 h2
      exact absurd h2 (by omega)
    · simp only [hA] at hr
      by_cases hstop : shouldRetry e = false ∨ fuel = 0
      · rw [if_pos hstop] at hr
        subst hr
        refine ⟨le_refl _, by omega, hA.symm, ?_, ?_, by simp⟩
        · intro j h1 h2
          exact absurd h2 (by omega)
        · rcases hstop with hs | hs
          · exact Or.inr (Or.inr ⟨e, rfl, hs⟩)
          · subst hs
            right; left; omega
      · rw [if_neg hstop] at hr
        push_neg at hstop
        obtain ⟨hs1, hs2⟩ := hstop
        have hs1' : shouldRetry e = true := by
          revert hs1
          cases shouldRetry e <;> simp
        obtain ⟨h1, h2, h3, h4, h5, h6⟩ := ih (k + 1)
          (waits ++ [wait_retry_after_header now (some e) +
            wait_exponential (2 / 10) k]) r (by omega) hr
        refine ⟨by omega, by omega, h3, ?_, ?_, ?_⟩
        · intro j hj1 hj2
          rcases Nat.eq_or_lt_of_le hj1 with hj | hj
          · subst hj
            exact ⟨e, hA, hs1'⟩
          · exact h4 j (by omega) hj2
        · rcases h5 with h5 | h5 | h5
          · exact Or.inl h5
          · right; left; omega
          · exact Or.inr (Or.inr h5)
        · rw [h6, List.append_assoc]
          congr 1
          have hm : r.1 - k = (r.1 - (k + 1)) + 1 := by omega
          rw [hm, List.range_succ_eq_map, List.map_cons, List.map_map,
            List.singleton_append]
          congr 1
          · simp only [Nat.add_zero, hA]
          · apply List.map_congr_left
            intro i _
            simp only [Function.comp_apply, Nat.succ_eq_add_one]
            have hi : k + 1 + i = k + (i + 1) := by omega
            rw [hi]

/-- **C9.** The retry policy of `AsyncClient.request`: at most 5
attempts; the final outcome is attempt `n`'s outcome re-raised/returned
unchanged; every attempt before the last failed with a transport error,
a 5xx response or a 429 response (the only retryable classes); the run
stops only on success, the 5-attempt budget, or a non-retryable error;
and the wait before attempt `k+1` is the `Retry-After` value (clamped
to ≥ 0, and 0 when absent) plus the exponential term `0.2·2^k` — in
particular every wait is non-negative. -/
theorem connectivity_retry_policy (now : Int) (attempts : Nat → AttemptOutcome) :
    1 ≤ (connectivity_issue_retry now attempts).1 ∧
    (connectivity_issue_retry now attempts).1 ≤ 5 ∧
    (connectivity_issue_retry now attempts).2.1 =
      attemptResult (attempts (connectivity_issue_retry now attempts).1) ∧
    (∀ j, 1 ≤ j → j < (connectivity_issue_retry now attempts).1 →
      attempts j = .transport ∨
        ∃ st ra, attempts j = .response st ra ∧ ((500 ≤ st ∧ st ≤ 599) ∨ st = 429)) ∧
    ((connectivity_issue_retry now attempts).2.1 = none ∨
      (connectivity_issue_retry now attempts).1 = 5 ∨
      ∃ e, (connectivity_issue_retry now attempts).2.1 = some e ∧
        shouldRetry e = false) ∧
    (connectivity_issue_retry now attempts).2.2 =
      (List.range ((connectivity_issue_retry now attempts).1 - 1)).map (fun i =>
        wait_retry_after_header now (attemptResult (attempts (1 + i))) +
          wait_exponential (2 / 10) (1 + i)) ∧
    (∀ w ∈ (connectivity_issue_retry now attempts).2.2, 0 ≤ w) := by
  obtain ⟨h1, h2, h3, h4, h5, h6⟩ := retryGo_spec now attempts 5 1 []
    (connectivity_issue_retry now attempts) (by omega) rfl
  refine ⟨h1, by omega, h3, ?_, ?_, ?_, ?_⟩
  · intro j hj1 hj2
    obtain ⟨e, he, hre⟩ := h4 j hj1 hj2
    exact retryable_classification (attempts j) e he hre
  · rcases h5 with h | h | h
    · exact Or.inl h
    · right; left; omega
    · exact Or.inr (Or.inr h)
  · rw [h6, List.nil_append]
  · intro w hw
    rw [h6] at hw
    simp only [List.nil_append, List.mem_map] at hw
    obtain ⟨i, -, rfl⟩ := hw
    refine add_nonneg (wait_retry_after_header_nonneg now _) ?_
    unfold wait_exponential
    positivity

/-- **C9 witness.** The policy applied to a concrete request whose
every attempt returns a plain 200 response. -/
theorem connectivity_retry_policy_witness :
    1 ≤ (connectivity_issue_retry 0 (fun _ => AttemptOutcome.response 200 .absent)).1 ∧
    (connectivity_issue_retry 0 (fun _ => AttemptOutcome.response 200 .absent)).1 ≤ 5 :=
  ⟨(connectivity_retry_policy 0 (fun _ => AttemptOutcome.response 200 .absent)).1,
   (connectivity_retry_policy 0 (fun _ => AttemptOutcome.response 200 .absent)).2.1⟩

end MergeTrain
